import Mathlib

/-!
Verification of the database-access gateway of `mongodb-show`.

This file shallowly embeds the parts of the source relevant to the connection
registry, the query/SQL sanitizers and the rate limiter, and proves (or refutes)
the specification's claims about them.

Embedding conventions:
* JavaScript untrusted values (the `any` filter payloads) are modelled by the
  inductive `JsValue` (null / bool / number / string / array / ordered object).
* `throw` on first violation is modelled by `Except`, with a structured error
  type carrying the offending token.
* JS `Map` objects and object insertion order are modelled by association lists.
* `Date.now()` timestamps and pool handles are `Nat`.
-/

namespace MongoShow

/-- Decidable equality of results, used to evaluate concrete runs. -/
instance {e a : Type} [DecidableEq e] [DecidableEq a] : DecidableEq (Except e a) := fun
  | .error x, .error y =>
      if h : x = y then .isTrue (by rw [h]) else .isFalse (by simp [h])
  | .error _, .ok _ => .isFalse (by simp)
  | .ok _, .error _ => .isFalse (by simp)
  | .ok x, .ok y =>
      if h : x = y then .isTrue (by rw [h]) else .isFalse (by simp [h])

/-- Whether an `Except` result is an error (a thrown JS exception). -/
def isErr {ε α : Type} : Except ε α → Bool
  | .error _ => true
  | .ok _ => false

/-- JS `Map` model: lookup (`Map.get`, also record indexing). -/
def getA {β : Type} : List (String × β) → String → Option β
  | [], _ => none
  | (k, v) :: rest, key => if k = key then some v else getA rest key

/-- JS `Map` model: `Map.set` replaces the entry in place, or appends. -/
def setA {β : Type} : List (String × β) → String → β → List (String × β)
  | [], key, v => [(key, v)]
  | (k, w) :: rest, key, v =>
      if k = key then (key, v) :: rest else (k, w) :: setA rest key v

/-- JS `Map` model: `Map.delete`. -/
def eraseA {β : Type} : List (String × β) → String → List (String × β)
  | [], _ => []
  | (k, v) :: rest, key => if k = key then rest else (k, v) :: eraseA rest key

/-! ## Embedding of src/lib/mongodb/sanitize.ts -/

namespace MongoSanitize

/-- Untyped JS value tree, the shape of an untrusted filter payload. -/
inductive JsValue where
  | null : JsValue
  | bool (b : Bool) : JsValue
  | num (n : Int) : JsValue
  | str (s : String) : JsValue
  | arr (items : List JsValue) : JsValue
  | obj (entries : List (String × JsValue)) : JsValue

/-- `ALLOWED_QUERY_OPERATORS` from src/lib/mongodb/sanitize.ts. -/
def ALLOWED_QUERY_OPERATORS : List String :=
  ["$eq", "$ne", "$gt", "$gte", "$lt", "$lte",
   "$in", "$nin", "$and", "$or", "$not", "$nor",
   "$exists", "$type", "$regex", "$options",
   "$size", "$mod", "$elemMatch"]

/-- `ALLOWED_AGGREGATION_STAGES` from src/lib/mongodb/sanitize.ts. -/
def ALLOWED_AGGREGATION_STAGES : List String :=
  ["$match", "$group", "$project", "$sort", "$limit", "$skip",
   "$unwind", "$lookup", "$facet", "$bucket", "$bucketAuto",
   "$count", "$addFields", "$replaceRoot", "$sample", "$redact"]

/-- `DANGEROUS_OPERATORS` from src/lib/mongodb/sanitize.ts. -/
def DANGEROUS_OPERATORS : List String :=
  ["$where", "$function", "$accumulator", "$eval",
   "$expr", "$jsonSchema", "$mod"]

/-- Models JS `key.startsWith('$')`: the first character is the operator sigil.
(Defined on the character list so that it evaluates inside the kernel.) -/
def startsWithDollar (key : String) : Bool :=
  match key.data with
  | [] => false
  | c :: _ => c = '$'

/-- Structured form of the errors thrown by `sanitizeQuery`:
`tooDeep` is `Error('Query too deep')`, `opNotAllowed k` is
`` Error(`Operator ${k} is not allowed`) ``. -/
inductive SanitizeError where
  | tooDeep : SanitizeError
  | opNotAllowed (op : String) : SanitizeError
deriving DecidableEq

mutual

/-- `sanitizeQuery(obj, depth)` from src/lib/mongodb/sanitize.ts.
Non-object leaves pass through; arrays recurse into object/array elements;
object keys are checked against the deny-list first, then `$`-keys against the
allow-list, then every value is recursively sanitized at `depth + 1`. -/
def sanitizeQuery (v : JsValue) (depth : Nat) : Except SanitizeError JsValue :=
  if depth > 10 then
    .error .tooDeep
  else
    match v with
    | .null => .ok v
    | .bool _ => .ok v
    | .num _ => .ok v
    | .str _ => .ok v
    | .arr items => do
        let xs ← sanitizeItems items depth
        .ok (.arr xs)
    | .obj entries => do
        let es ← sanitizeEntries entries depth
        .ok (.obj es)
termination_by structural v

/-- The `obj.map((item) => ...)` loop of `sanitizeQuery` on arrays:
recurse only into elements with `typeof item === 'object' && item !== null`. -/
def sanitizeItems (items : List JsValue) (depth : Nat) :
    Except SanitizeError (List JsValue) :=
  match items with
  | [] => .ok []
  | item :: rest => do
      let x ←
        match item with
        | .obj _ => sanitizeQuery item (depth + 1)
        | .arr _ => sanitizeQuery item (depth + 1)
        | _ => .ok item
      let xs ← sanitizeItems rest depth
      .ok (x :: xs)
termination_by structural items

/-- The `Object.entries(obj)` loop of `sanitizeQuery`: deny-list check, then
allow-list check for `$`-keys, then recursive sanitization of the value. -/
def sanitizeEntries (entries : List (String × JsValue)) (depth : Nat) :
    Except SanitizeError (List (String × JsValue)) :=
  match entries with
  | [] => .ok []
  | (key, value) :: rest =>
      if DANGEROUS_OPERATORS.contains key then
        .error (.opNotAllowed key)
      else if startsWithDollar key && !ALLOWED_QUERY_OPERATORS.contains key then
        .error (.opNotAllowed key)
      else do
        let w ← sanitizeQuery value (depth + 1)
        let ws ← sanitizeEntries rest depth
        .ok ((key, w) :: ws)
termination_by structural entries

end

/-- `sanitizePipeline(pipeline)` from src/lib/mongodb/sanitize.ts: every stage
operator must be outside the deny-list and inside the stage allow-list. -/
def sanitizePipeline (pipeline : List (List (String × JsValue))) :
    Except SanitizeError (List (List (String × JsValue))) :=
  match pipeline with
  | [] => .ok pipeline
  | stage :: rest =>
      match checkStage stage with
      | some e => .error e
      | none =>
          match sanitizePipeline rest with
          | .error e => .error e
          | .ok _ => .ok pipeline
where
  /-- The inner `Object.keys(stage)` loop. -/
  checkStage : List (String × JsValue) → Option SanitizeError
    | [] => none
    | (op, _) :: rest =>
        if DANGEROUS_OPERATORS.contains op then some (.opNotAllowed op)
        else if !ALLOWED_AGGREGATION_STAGES.contains op then some (.opNotAllowed op)
        else checkStage rest

mutual

/-- `true` iff some object key satisfying `p` occurs anywhere in the value. -/
def hasKey (p : String → Bool) : JsValue → Bool
  | .arr items => hasKeyItems p items
  | .obj entries => hasKeyEntries p entries
  | _ => false

def hasKeyItems (p : String → Bool) : List JsValue → Bool
  | [] => false
  | x :: xs => hasKey p x || hasKeyItems p xs

def hasKeyEntries (p : String → Bool) : List (String × JsValue) → Bool
  | [] => false
  | (k, v) :: rest => p k || hasKey p v || hasKeyEntries p rest

end

mutual

/-- The deepest recursion depth increment that `sanitizeQuery` performs on this
value: object values always recurse; array elements recurse only when they are
objects or arrays. `sanitizeQuery v d` reaches recursion depth `d + needDepth v`. -/
def needDepth : JsValue → Nat
  | .arr items => needDepthItems items
  | .obj entries => needDepthEntries entries
  | _ => 0

def needDepthItems : List JsValue → Nat
  | [] => 0
  | x :: xs =>
      max
        (match x with
         | .obj _ => 1 + needDepth x
         | .arr _ => 1 + needDepth x
         | _ => 0)
        (needDepthItems xs)

def needDepthEntries : List (String × JsValue) → Nat
  | [] => 0
  | (_, v) :: rest => max (1 + needDepth v) (needDepthEntries rest)

end

/-- The key test under which `sanitizeQuery` throws at an object entry. -/
def badKey (k : String) : Bool :=
  DANGEROUS_OPERATORS.contains k ||
    (startsWithDollar k && !ALLOWED_QUERY_OPERATORS.contains k)

/-- A clean object chain nested `n` objects deep. -/
def deepObj : Nat → JsValue
  | 0 => .str "x"
  | n + 1 => .obj [("a", deepObj n)]

end MongoSanitize

/-! ## Embedding of src/lib/postgresql/sanitize.ts

All text scanning is done on `String.data` character lists so that the
definitions evaluate inside the kernel. Case-insensitive regex matching
(`/i`) is modelled by ASCII case folding; `\s` and `\w` are modelled by
their ASCII classes. -/

namespace PgSanitize

/-- `DANGEROUS_KEYWORDS` from src/lib/postgresql/sanitize.ts (verbatim,
including the duplicated REINDEX entry). -/
def DANGEROUS_KEYWORDS : List String :=
  ["DROP", "DELETE", "INSERT", "UPDATE", "CREATE", "ALTER", "TRUNCATE",
   "GRANT", "REVOKE", "EXECUTE", "EXEC", "CALL", "COPY", "VACUUM", "ANALYZE",
   "REINDEX", "CLUSTER", "COMMENT", "SECURITY", "OWNER", "TABLESPACE", "LOCK",
   "LOAD", "LISTEN", "NOTIFY", "PREPARE", "DEALLOCATE", "DISCARD", "DO",
   "CHECKPOINT", "FREESPACE", "REINDEX"]

/-- `ALLOWED_STATEMENTS` from src/lib/postgresql/sanitize.ts. -/
def ALLOWED_STATEMENTS : List String :=
  ["SELECT", "WITH", "EXPLAIN", "SHOW", "BEGIN", "COMMIT", "ROLLBACK",
   "SET", "DECLARE", "FETCH", "CLOSE"]

/-- The regex class `\s` (ASCII part). -/
def isSpaceChar (c : Char) : Bool :=
  c = ' ' || c = '\t' || c = '\n' || c = '\r' || c = '\x0b' || c = '\x0c'

/-- The regex class `\w`. -/
def isWordChar (c : Char) : Bool :=
  c.isAlpha || c.isDigit || c = '_'

/-- ASCII case-insensitive prefix match, modelling the `/i` regex flag. -/
def ciPrefix : List Char → List Char → Bool
  | [], _ => true
  | _ :: _, [] => false
  | p :: ps, c :: cs => (p.toLower == c.toLower) && ciPrefix ps cs

/-- `\b` on the left of a position, given the preceding character. -/
def boundaryBefore : Option Char → Bool
  | none => true
  | some c => !isWordChar c

/-- `\b` on the right of a position. -/
def boundaryAfter : List Char → Bool
  | [] => true
  | c :: _ => !isWordChar c

/-- Tests every position of the text (tracking the preceding character), as a
regex engine scanning for an unanchored match does. -/
def scanPos (test : Option Char → List Char → Bool) :
    Option Char → List Char → Bool
  | _, [] => false
  | prev, c :: rest => test prev (c :: rest) || scanPos test (some c) rest

/-- Models `` new RegExp(`\\b${keyword}\\b`, 'i').test(sql) `` for an
alphanumeric keyword (the uppercase conversion in the source is subsumed by
the case-insensitive match). -/
def testWordBoundary (kw : String) (s : String) : Bool :=
  scanPos
    (fun prev cs =>
      boundaryBefore prev && ciPrefix kw.data cs &&
        boundaryAfter (cs.drop kw.length))
    none s.data

/-- `containsDangerousKeyword` from src/lib/postgresql/sanitize.ts: the first
deny-listed keyword matching `\bKW\b` case-insensitively, if any. -/
def containsDangerousKeyword (sql : String) : Option String :=
  DANGEROUS_KEYWORDS.find? (fun kw => testWordBoundary kw sql)

/-- Models JS `String.prototype.trim` on the character list (ASCII whitespace). -/
def trimChars (cs : List Char) : List Char :=
  ((cs.dropWhile isSpaceChar).reverse.dropWhile isSpaceChar).reverse

/-- `startsWithAllowedStatement` from src/lib/postgresql/sanitize.ts: the first
allow-listed statement keyword the trimmed SQL starts with (case-insensitively),
if any. -/
def startsWithAllowedStatement (sql : String) : Option String :=
  ALLOWED_STATEMENTS.find? (fun st => ciPrefix st.data (trimChars sql.data))

/-- Matcher for the regexes of the form `;\s*KW` (stacked-statement probes). -/
def testSemiThen (kw : String) (s : String) : Bool :=
  scanPos
    (fun _ cs =>
      match cs with
      | ';' :: rest => ciPrefix kw.data (rest.dropWhile isSpaceChar)
      | _ => false)
    none s.data

/-- Matcher for the regexes of the form `\bKW\s*\(` (pg_sleep, load_file). -/
def testKwSpacesParen (kw : String) (s : String) : Bool :=
  scanPos
    (fun prev cs =>
      boundaryBefore prev && ciPrefix kw.data cs &&
        (match (cs.drop kw.length).dropWhile isSpaceChar with
         | '(' :: _ => true
         | _ => false))
    none s.data

/-- Matcher for the regexes of the form `\bKW1\s+KW2` (waitfor delay,
into outfile, into dumpfile). -/
def testKwSpaceKw (kw1 kw2 : String) (s : String) : Bool :=
  scanPos
    (fun prev cs =>
      boundaryBefore prev && ciPrefix kw1.data cs &&
        (match cs.drop kw1.length with
         | c :: rest =>
             isSpaceChar c && ciPrefix kw2.data (rest.dropWhile isSpaceChar)
         | [] => false))
    none s.data

/-- Positions reachable by regex `.*` from here (it cannot cross a newline);
`p` is tested at each. -/
def searchNoNewline (p : List Char → Bool) : List Char → Bool
  | [] => p []
  | c :: rest => p (c :: rest) || ((c != '\n') && searchNoNewline p rest)

/-- Matcher for `\bcopy\s+.*\s+from\s+program` (command execution). -/
def testCopyFromProgram (s : String) : Bool :=
  scanPos
    (fun prev cs =>
      boundaryBefore prev && ciPrefix "copy".data cs &&
        (match cs.drop 4 with
         | c :: rest =>
             isSpaceChar c &&
               searchNoNewline
                 (fun ds =>
                   match ds with
                   | d :: rest2 =>
                       isSpaceChar d &&
                         (let afterFrom := rest2.dropWhile isSpaceChar
                          ciPrefix "from".data afterFrom &&
                            (match afterFrom.drop 4 with
                             | e :: rest3 =>
                                 isSpaceChar e &&
                                   ciPrefix "program".data
                                     (rest3.dropWhile isSpaceChar)
                             | [] => false))
                   | [] => false)
                 rest
         | [] => false))
    none s.data

/-- `DANGEROUS_PATTERNS` from src/lib/postgresql/sanitize.ts: each regex source
paired with its matcher. -/
def DANGEROUS_PATTERNS : List (String × (String → Bool)) :=
  [(";\\s*DROP", testSemiThen "DROP"),
   (";\\s*DELETE", testSemiThen "DELETE"),
   (";\\s*INSERT", testSemiThen "INSERT"),
   (";\\s*UPDATE", testSemiThen "UPDATE"),
   (";\\s*CREATE", testSemiThen "CREATE"),
   (";\\s*ALTER", testSemiThen "ALTER"),
   (";\\s*TRUNCATE", testSemiThen "TRUNCATE"),
   (";\\s*EXEC", testSemiThen "EXEC"),
   ("\\bpg_sleep\\s*\\(", testKwSpacesParen "pg_sleep"),
   ("\\bwaitfor\\s+delay", testKwSpaceKw "waitfor" "delay"),
   ("\\binto\\s+outfile", testKwSpaceKw "into" "outfile"),
   ("\\binto\\s+dumpfile", testKwSpaceKw "into" "dumpfile"),
   ("\\bload_file\\s*\\(", testKwSpacesParen "load_file"),
   ("\\bcopy\\s+.*\\s+from\\s+program", testCopyFromProgram)]

/-- `containsDangerousPattern` from src/lib/postgresql/sanitize.ts: the source
of the first matching pattern, if any. -/
def containsDangerousPattern (sql : String) : Option String :=
  (DANGEROUS_PATTERNS.find? (fun pat => pat.2 sql)).map (fun pat => pat.1)

/-- Structured form of `SqlInjectionError`, one constructor per thrown message,
carrying the offending token. -/
inductive SqlError where
  | tooLong (maxLength : Nat) : SqlError
  | multipleStatements : SqlError
  | dangerousPattern (source : String) : SqlError
  | dangerousKeyword (keyword : String) : SqlError
  | statementNotAllowed : SqlError
  | tooManyParams (maxParams : Nat) : SqlError
  | invalidParamType (index : Nat) : SqlError
  | placeholderMismatch (placeholders : Nat) (params : Nat) : SqlError
deriving DecidableEq

/-- The options object of `sanitizeSqlQuery`. -/
structure SqlOptions where
  allowWrite : Bool
  allowMultipleStatements : Bool
  maxLength : Nat
deriving DecidableEq

/-- The destructuring defaults `allowWrite = false`,
`allowMultipleStatements = false`, `maxLength = 100000`. -/
def defaultSqlOptions : SqlOptions := ⟨false, false, 100000⟩

/-- Models JS `trimmed.indexOf(';')` (as an option instead of `-1`). -/
def firstSemiIdx : List Char → Option Nat
  | [] => none
  | c :: rest =>
      if c = ';' then some 0 else (firstSemiIdx rest).map (fun i => i + 1)

/-- Check 2 of `sanitizeSqlQuery`: `sql.includes(';')` and the first semicolon
of the trimmed statement is not its last character. -/
def multiStatementViolation (sql : String) : Bool :=
  sql.data.contains ';' &&
    (match firstSemiIdx (trimChars sql.data) with
     | some i => decide (i ≠ (trimChars sql.data).length - 1)
     | none => false)

/-- `sanitizeSqlQuery(sql, options)` from src/lib/postgresql/sanitize.ts:
length bound, multi-statement detection, dangerous-pattern scan,
dangerous-keyword scan (read-only mode), leading-statement check (read-only
mode), in this order, first failure wins. -/
def sanitizeSqlQuery (sql : String) (opts : SqlOptions) : Except SqlError String :=
  if sql.length > opts.maxLength then
    .error (.tooLong opts.maxLength)
  else if !opts.allowMultipleStatements && multiStatementViolation sql then
    .error .multipleStatements
  else
    match containsDangerousPattern sql with
    | some src => .error (.dangerousPattern src)
    | none =>
        if !opts.allowWrite then
          match containsDangerousKeyword sql with
          | some kw => .error (.dangerousKeyword kw)
          | none =>
              if (startsWithAllowedStatement sql).isNone then
                .error .statementNotAllowed
              else
                .ok sql
        else
          .ok sql

/-- The runtime type of a JS parameter value, as far as `validateParams`
distinguishes them. -/
inductive SqlParam where
  | jsNull : SqlParam
  | str (s : String) : SqlParam
  | num (n : Int) : SqlParam
  | bool (b : Bool) : SqlParam
  | date : SqlParam
  | buffer : SqlParam
  | arr : SqlParam
  | plainObject : SqlParam
  | classInstance : SqlParam
  | func : SqlParam
  | undef : SqlParam
deriving DecidableEq

/-- The allow-list of `validateParams`: null, string, number, boolean, Date,
Buffer, Array, or a plain object whose prototype is null or Object.prototype. -/
def paramTypeOk : SqlParam → Bool
  | .classInstance => false
  | .func => false
  | .undef => false
  | _ => true

/-- The loop of `validateParams`: index of the first rejected parameter. -/
def firstBadParam : List SqlParam → Nat → Option Nat
  | [], _ => none
  | p :: rest, i => if paramTypeOk p then firstBadParam rest (i + 1) else some i

/-- `(sanitizedSql.match(/\$/g) || []).length`: the number of `$` characters. -/
def countDollar (s : String) : Nat := s.data.count '$'

/-- `sanitizeParameterizedQuery(sql, params, options)` from
src/lib/postgresql/sanitize.ts: statement validation, parameter-count bound
(default 100), parameter-type validation, and the `$`-count comparison against
`params.length`. -/
def sanitizeParameterizedQuery (sql : String) (params : List SqlParam)
    (opts : SqlOptions) (maxParams : Nat) :
    Except SqlError (String × List SqlParam) :=
  match sanitizeSqlQuery sql opts with
  | .error e => .error e
  | .ok sanitizedSql =>
      if params.length > maxParams then
        .error (.tooManyParams maxParams)
      else
        match firstBadParam params 0 with
        | some i => .error (.invalidParamType i)
        | none =>
            if countDollar sanitizedSql ≠ params.length then
              .error (.placeholderMismatch (countDollar sanitizedSql) params.length)
            else
              .ok (sanitizedSql, params)

/-- Written from the spec: the number of positional placeholders, i.e. of `$`
characters immediately followed by a digit. Used only to compare the spec
notion of "placeholder count" with the code's `$`-character count. -/
def specPlaceholderCount : List Char → Nat
  | [] => 0
  | '$' :: c :: rest => (if c.isDigit then 1 else 0) + specPlaceholderCount (c :: rest)
  | _ :: rest => specPlaceholderCount rest

/-- Written from the spec: some semicolon of the trimmed statement sits at a
position other than its final one (equivalently: a `;` appears anywhere except
as the single trailing character). -/
def specMisplacedSemi (sql : String) : Bool :=
  let t := trimChars sql.data
  (List.range t.length).any (fun i => (t.getD i ' ' == ';') && !(i == t.length - 1))

end PgSanitize

/-! ## Embedding of the rate limiter (src/unnamed/part_004, `checkRateLimit`) -/

namespace RateLimit

/-- `RateLimitEntry` from the rate-limiter module. -/
structure RateLimitEntry where
  count : Nat
  resetTime : Nat
deriving DecidableEq

/-- A per-route limit: request ceiling and window length in milliseconds. -/
structure RouteLimit where
  requests : Nat
  window : Nat
deriving DecidableEq

/-- The `LIMITS` table from the rate-limiter module. -/
def LIMITS : List (String × RouteLimit) :=
  [("/api/auth/signin", ⟨5, 60000⟩),
   ("/api/auth/register", ⟨3, 300000⟩),
   ("/api/connections/test", ⟨10, 60000⟩),
   ("/api/connections/add", ⟨5, 60000⟩),
   ("default", ⟨100, 60000⟩)]

/-- `LIMITS[path] || LIMITS.default`. -/
def limitFor (path : String) : RouteLimit :=
  match getA LIMITS path with
  | some l => l
  | none => (getA LIMITS "default").getD ⟨100, 60000⟩

/-- The mutable `rateLimit` map, as an insertion-ordered association list. -/
abbrev RState := List (String × RateLimitEntry)

/-- `checkRateLimit(identifier, path)` at time `now` (`Date.now()`): sweep all
expired entries, look up the window for `identifier:path` (starting a fresh one
with count 0 if absent), deny with the reset time when the count has reached
the route ceiling, else increment and admit. (The source also computes an
unused `windowStart`.) Returns `(success, resetTime?)` and the new map. -/
def checkRateLimit (identifier path : String) (now : Nat) (st : RState) :
    (Bool × Option Nat) × RState :=
  let limit := limitFor path
  let swept := st.filter (fun kv => !decide (kv.2.resetTime < now))
  let key := identifier ++ ":" ++ path
  let current := (getA swept key).getD ⟨0, now + limit.window⟩
  if current.count ≥ limit.requests then
    ((false, some current.resetTime), swept)
  else
    ((true, none), setA swept key ⟨current.count + 1, current.resetTime⟩)

/-- Run `checkRateLimit` sequentially at the given timestamps, collecting the
results. -/
def runCalls (identifier path : String) : List Nat → RState →
    (List (Bool × Option Nat) × RState)
  | [], st => ([], st)
  | t :: ts, st =>
      ((checkRateLimit identifier path t st).1 ::
        (runCalls identifier path ts (checkRateLimit identifier path t st).2).1,
       (runCalls identifier path ts (checkRateLimit identifier path t st).2).2)

end RateLimit

/-! ## Embedding of the connection registry

src/lib/postgresql/client.ts (`PostgresClient`, `getPostgresClient`),
src/lib/mongodb/client.ts (`buildConnectionString`, `getMongoClient`) and
src/lib/database/connection-manager.ts (`getDatabaseClient`).

Live backend pools and MongoClient instances are identified by numeric
handles: a fresh construction takes the state's counter value. Network
outcomes (the `SELECT 1` / `ping` liveness probes and `connect()`) are an
environment mapping each handle to success or failure. -/

namespace Registry

/-- `ClientStatus` from src/lib/database/client-interface.ts. -/
inductive ClientStatus where
  | disconnected : ClientStatus
  | connecting : ClientStatus
  | connected : ClientStatus
  | error : ClientStatus
deriving DecidableEq

/-- The `PostgresConnection` descriptor from src/types/database.ts (the fields
the registry and builder read). -/
structure PostgresConnection where
  id : String
  name : String
  host : String
  port : Nat
  database : String
  username : Option String
  password : Option String
  ssl : Option Bool
  connectionString : Option String
deriving DecidableEq

/-- The `MongoConnection` descriptor from src/types/database.ts (the fields
the builder reads). -/
structure MongoConnection where
  id : String
  host : String
  port : Nat
  username : Option String
  password : Option String
  authenticationDatabase : Option String
  authMechanism : Option String
  srv : Bool
  connectionString : Option String
deriving DecidableEq

/-- JS truthiness of an optional string field (`undefined` and `""` are falsy). -/
def jsTruthyStr (o : Option String) : Bool :=
  match o with
  | some s => s ≠ ""
  | none => false

/-- `a || b` for a string `a` and an optional fallback. -/
def jsOrStrOpt (a : String) (b : Option String) : Option String :=
  if a ≠ "" then some a else b

/-- `a || b` for strings. -/
def jsOrStr (a b : String) : String :=
  if a ≠ "" then a else b

/-- `v || fallback` where `v` is the result of `parseInt` (`NaN` and `0` are
falsy). -/
def jsOrNat (v : Option Nat) (fallback : Nat) : Nat :=
  match v with
  | some n => if n ≠ 0 then n else fallback
  | none => fallback

/-- Split a character list at the first occurrence of `c` (excluded). -/
def splitOnFirst (c : Char) : List Char → Option (List Char × List Char)
  | [] => none
  | x :: rest =>
      if x = c then some ([], rest)
      else (splitOnFirst c rest).map (fun pr => (x :: pr.1, pr.2))

/-- Split a character list at the last occurrence of `c` (excluded). -/
def splitOnLast (c : Char) (cs : List Char) : Option (List Char × List Char) :=
  match splitOnFirst c cs.reverse with
  | none => none
  | some pr => some (pr.2.reverse, pr.1.reverse)

/-- The components of a parsed URL that `buildConfig` reads. -/
structure URLParts where
  protocol : String
  username : String
  password : String
  hostname : String
  port : String
  pathname : String
deriving DecidableEq

/-- Models `new URL(s)` (WHATWG) for URLs of the shape
`scheme://[user[:password]@]host[:port][/path]` with a non-special scheme such
as `postgresql:`: the opaque host is kept verbatim, userinfo splits at the
last `@`, the port stays a string (empty when absent), and the pathname keeps
its leading slash. Malformed inputs yield empty components. -/
def parseURL (s : String) : URLParts :=
  match splitOnFirst ':' s.data with
  | none => ⟨"", "", "", "", "", ""⟩
  | some (scheme, rest) =>
      match rest with
      | '/' :: '/' :: rest2 =>
          let authPath :=
            match splitOnFirst '/' rest2 with
            | none => (rest2, ([] : List Char))
            | some pr => (pr.1, '/' :: pr.2)
          let userHost :=
            match splitOnLast '@' authPath.1 with
            | none => (([] : List Char), ([] : List Char), authPath.1)
            | some pr =>
                match splitOnFirst ':' pr.1 with
                | none => (pr.1, ([] : List Char), pr.2)
                | some up => (up.1, up.2, pr.2)
          let hostPort :=
            match splitOnLast ':' userHost.2.2 with
            | none => (userHost.2.2, ([] : List Char))
            | some pr => (pr.1, pr.2)
          ⟨String.mk (scheme ++ [':']), String.mk userHost.1,
           String.mk userHost.2.1, String.mk hostPort.1,
           String.mk hostPort.2, String.mk authPath.2⟩
      | _ => ⟨String.mk (scheme ++ [':']), "", "", "", "", ""⟩

/-- Models JS `parseInt` for the strings `url.port` produces (digit strings,
or empty/non-numeric giving `NaN`, here `none`). -/
def parseIntOpt (s : String) : Option Nat :=
  let digits := s.data.takeWhile Char.isDigit
  if digits.isEmpty then none
  else some (digits.foldl (fun acc c => acc * 10 + (c.toNat - 48)) 0)

/-- The `ssl` field of a pool configuration:
`undefined`, a plain boolean, or `{ rejectUnauthorized: false }`. -/
inductive SslOpt where
  | undef : SslOpt
  | plain (b : Bool) : SslOpt
  | rejectUnauthorizedFalse : SslOpt
deriving DecidableEq

/-- The pool configuration object `PostgresClient.buildConfig` returns. -/
structure PgPoolConfig where
  host : String
  port : Nat
  database : String
  user : Option String
  password : Option String
  ssl : SslOpt
  max : Nat
  min : Nat
  connectionTimeoutMillis : Nat
  idleTimeoutMillis : Nat
deriving DecidableEq

/-- `PostgresClient.buildConfig` from src/lib/postgresql/client.ts: when the
descriptor carries a (truthy) connection string it is parsed as a URL and each
component falls back to the corresponding discrete field (`||`); `ssl` comes
from the descriptor when the scheme is `postgresql:`. Otherwise the discrete
fields are used, with `ssl ? { rejectUnauthorized: false } : undefined`. -/
def buildConfig (config : PostgresConnection) : PgPoolConfig :=
  if jsTruthyStr config.connectionString then
    let url := parseURL (config.connectionString.getD "")
    ⟨jsOrStr url.hostname config.host,
     jsOrNat (parseIntOpt url.port) config.port,
     jsOrStr (String.mk (url.pathname.data.drop 1)) config.database,
     jsOrStrOpt url.username config.username,
     jsOrStrOpt url.password config.password,
     (if url.protocol = "postgresql:" then
        match config.ssl with
        | some b => SslOpt.plain b
        | none => SslOpt.undef
      else SslOpt.undef),
     10, 2, 10000, 30000⟩
  else
    ⟨config.host, config.port, config.database, config.username,
     config.password,
     (if config.ssl = some true then SslOpt.rejectUnauthorizedFalse
      else SslOpt.undef),
     10, 2, 10000, 30000⟩

/-- A hexadecimal digit (uppercase), for percent-encoding. -/
def hexDigit (n : Nat) : Char :=
  if n < 10 then Char.ofNat (48 + n) else Char.ofNat (55 + n)

/-- The UTF-8 bytes of a character (as numbers below 256). -/
def utf8Bytes (c : Char) : List Nat :=
  let n := c.toNat
  if n < 128 then [n]
  else if n < 2048 then [192 + n / 64, 128 + n % 64]
  else if n < 65536 then [224 + n / 4096, 128 + n / 64 % 64, 128 + n % 64]
  else [240 + n / 262144, 128 + n / 4096 % 64, 128 + n / 64 % 64, 128 + n % 64]

/-- The characters `encodeURIComponent` leaves unencoded:
alphanumerics and `- _ . ! ~ * ' ( )`. -/
def isUnreservedURI (c : Char) : Bool :=
  c.isAlpha || c.isDigit || [45, 95, 46, 33, 126, 42, 39, 40, 41].contains c.toNat

/-- Models JS `encodeURIComponent`: percent-encode the UTF-8 bytes of every
reserved character. -/
def encodeURIComponent (s : String) : String :=
  String.mk (s.data.foldr
    (fun c acc =>
      if isUnreservedURI c then c :: acc
      else (utf8Bytes c).foldr
        (fun b acc2 => '%' :: hexDigit (b / 16) :: hexDigit (b % 16) :: acc2) acc)
    [])

/-- `buildConnectionString` from src/lib/mongodb/client.ts: an explicit
connection string is returned verbatim; otherwise an SRV or standard URI is
synthesized, percent-encoding credentials and appending
`authSource`/`authMechanism` only when credentials are present. -/
def buildConnectionString (connection : MongoConnection) : String :=
  if jsTruthyStr connection.connectionString then
    connection.connectionString.getD ""
  else if connection.srv then
    (if jsTruthyStr connection.username && jsTruthyStr connection.password then
      let authSource :=
        if jsTruthyStr connection.authenticationDatabase then
          "?authSource=" ++ connection.authenticationDatabase.getD ""
        else ""
      let authMechanismParam :=
        if jsTruthyStr connection.authMechanism &&
            connection.authMechanism.getD "" ≠ "DEFAULT" then
          "&authMechanism=" ++ connection.authMechanism.getD ""
        else ""
      "mongodb+srv://" ++ encodeURIComponent (connection.username.getD "") ++
        ":" ++ encodeURIComponent (connection.password.getD "") ++ "@" ++
        connection.host ++ authSource ++ authMechanismParam
    else "mongodb+srv://" ++ connection.host)
  else
    (if jsTruthyStr connection.username && jsTruthyStr connection.password then
      let authSource :=
        if jsTruthyStr connection.authenticationDatabase then
          "?authSource=" ++ connection.authenticationDatabase.getD ""
        else ""
      let authMechanismParam :=
        if jsTruthyStr connection.authMechanism &&
            connection.authMechanism.getD "" ≠ "DEFAULT" then
          "&authMechanism=" ++ connection.authMechanism.getD ""
        else ""
      "mongodb://" ++ encodeURIComponent (connection.username.getD "") ++
        ":" ++ encodeURIComponent (connection.password.getD "") ++ "@" ++
        connection.host ++ ":" ++ toString connection.port ++ "/" ++
        (if authSource ≠ "" then String.mk (authSource.data.drop 1) else "") ++
        authMechanismParam
    else "mongodb://" ++ connection.host ++ ":" ++ toString connection.port)

/-- Network environment of the PostgreSQL side: whether the `SELECT 1`
liveness probe succeeds on a given pool handle. -/
structure PgEnv where
  probeOk : Nat → Bool

/-- The PostgreSQL module state: the module-level `connections` map
(id → pool handle), the next fresh pool handle (pools constructed so far),
and the pools that have been `end()`ed. -/
structure PgState where
  cache : List (String × Nat)
  nextPool : Nat
  ended : List Nat
deriving DecidableEq

/-- A `PostgresClient` instance: its `pool` field (null until `connect`),
status, connection id and descriptor. -/
structure PgClient where
  pool : Option Nat
  status : ClientStatus
  connectionId : String
  config : PostgresConnection
deriving DecidableEq

/-- `new PostgresClient(connection)`: pool null, status disconnected. -/
def PgClient.new (connection : PostgresConnection) : PgClient :=
  ⟨none, .disconnected, connection.id, connection⟩

/-- `PostgresClient.connect`: if already connected, do nothing; otherwise
construct a native pool from `buildConfig` (handle `st.nextPool`), probe it
with `SELECT 1`, and on success mark the client connected and publish the pool
in the module cache. On failure the client keeps no pool and throws; the
constructed native pool is left behind un-ended. -/
def connect (c : PgClient) (env : PgEnv) (st : PgState) :
    Except Unit PgClient × PgState :=
  if c.status = .connected then (.ok c, st)
  else
    let p := st.nextPool
    if env.probeOk p then
      (.ok ⟨some p, .connected, c.connectionId, c.config⟩,
       ⟨setA st.cache c.connectionId p, st.nextPool + 1, st.ended⟩)
    else
      (.error (), ⟨st.cache, st.nextPool + 1, st.ended⟩)

/-- `getPostgresClient` from src/lib/postgresql/client.ts: probe the cached
pool for the id; on success return `new PostgresClient(connection)` (whose
`pool` field is null); on failure delete the cache entry and connect a fresh
client; with no cache entry, connect a fresh client. -/
def getPostgresClient (connection : PostgresConnection) (env : PgEnv)
    (st : PgState) : Except Unit PgClient × PgState :=
  match getA st.cache connection.id with
  | some cached =>
      if env.probeOk cached then (.ok (PgClient.new connection), st)
      else
        connect (PgClient.new connection) env
          ⟨eraseA st.cache connection.id, st.nextPool, st.ended⟩
  | none => connect (PgClient.new connection) env st

/-- The prelude of every `PostgresClient` operation (`query`,
`getDatabases`, ...): `if (!this.pool) await this.connect()`, then run on
`this.pool`. Returns the client and the pool handle the operation uses. -/
def pgQuery (c : PgClient) (env : PgEnv) (st : PgState) :
    Except Unit (PgClient × Nat) × PgState :=
  match c.pool with
  | some p => (.ok (c, p), st)
  | none =>
      match connect c env st with
      | (.ok c2, st2) =>
          (match c2.pool with
           | some p => (.ok (c2, p), st2)
           | none => (.error (), st2))
      | (.error e, st2) => (.error e, st2)

/-- The pool handles that have been constructed and never `end()`ed. -/
def livePgPools (st : PgState) : List Nat :=
  (List.range st.nextPool).filter (fun p => !st.ended.contains p)

/-- Network environment of the MongoDB side: whether the admin `ping` probe
succeeds on a given client handle, and whether `connect()` succeeds for a
fresh handle. -/
structure MEnv where
  probeOk : Nat → Bool
  connectOk : Nat → Bool

/-- The MongoDB module state: the module-level `connections` map and the next
fresh client handle. -/
structure MState where
  cache : List (String × Nat)
  nextClient : Nat
deriving DecidableEq

/-- The tail of `getMongoClient`: `new MongoClient(buildConnectionString(...))`
(handle `st.nextClient`), `connect()`, and on success cache and return it. -/
def mongoConnectFresh (connection : MongoConnection) (env : MEnv)
    (st : MState) : Except Unit Nat × MState :=
  let h := st.nextClient
  if env.connectOk h then
    (.ok h, ⟨setA st.cache connection.id h, h + 1⟩)
  else
    (.error (), ⟨st.cache, h + 1⟩)

/-- `getMongoClient` from src/lib/mongodb/client.ts: ping the cached client
and return it on success; on failure delete the cache entry; then (or with no
entry) build, connect, cache and return a fresh client. -/
def getMongoClient (connection : MongoConnection) (env : MEnv) (st : MState) :
    Except Unit Nat × MState :=
  match getA st.cache connection.id with
  | some cached =>
      if env.probeOk cached then (.ok cached, st)
      else
        mongoConnectFresh connection env
          ⟨eraseA st.cache connection.id, st.nextClient⟩
  | none => mongoConnectFresh connection env st

/-- A `DatabaseClient` as cached by the unified connection manager. -/
inductive DbClient where
  | pg (c : PgClient) : DbClient
  | mongo (m : Nat) : DbClient
deriving DecidableEq

/-- The `DatabaseConnection` union (`isPostgresConnection` dispatch). -/
inductive DbConn where
  | pgc (c : PostgresConnection) : DbConn
  | mgc (c : MongoConnection) : DbConn
deriving DecidableEq

/-- The descriptor id. -/
def DbConn.id : DbConn → String
  | .pgc c => c.id
  | .mgc c => c.id

/-- The combined gateway state: the manager's own `connections` map plus the
two backend module states. -/
structure MgrState where
  mgrCache : List (String × DbClient)
  pg : PgState
  mongo : MState
deriving DecidableEq

/-- `getDatabaseClient` from src/lib/database/connection-manager.ts: return a
cached client as-is (no probe); otherwise dispatch on the backend kind —
PostgreSQL clients are obtained from `getPostgresClient` and cached in the
manager map, MongoDB clients are returned from `getMongoClient` without
manager-level caching. -/
def getDatabaseClient (connection : DbConn) (penv : PgEnv) (menv : MEnv)
    (st : MgrState) : Except Unit DbClient × MgrState :=
  match getA st.mgrCache connection.id with
  | some cached => (.ok cached, st)
  | none =>
      match connection with
      | .pgc c =>
          (match getPostgresClient c penv st.pg with
           | (.ok client, pst) =>
               (.ok (.pg client),
                ⟨setA st.mgrCache c.id (.pg client), pst, st.mongo⟩)
           | (.error e, pst) => (.error e, ⟨st.mgrCache, pst, st.mongo⟩))
      | .mgc c =>
          (match getMongoClient c menv st.mongo with
           | (.ok m, mst) => (.ok (.mongo m), ⟨st.mgrCache, st.pg, mst⟩)
           | (.error e, mst) => (.error e, ⟨st.mgrCache, st.pg, mst⟩))

/-- A PostgreSQL descriptor used in the concrete registry scenarios. -/
def connC1 : PostgresConnection :=
  ⟨"c1", "c1", "h", 5432, "db", none, none, none, none⟩

/-- Environment in which every probe succeeds. -/
def envAllOk : PgEnv := ⟨fun _ => true⟩

/-- Environment in which every probe fails. -/
def envAllFail : PgEnv := ⟨fun _ => false⟩

/-- Environment in which only the already-cached pool 0 is stale. -/
def envProbeNewOnly : PgEnv := ⟨fun p => p != 0⟩

/-- Mongo environment: probes fail, fresh connects succeed. -/
def menvAllFail : MEnv := ⟨fun _ => false, fun _ => true⟩

/-- Mongo environment: everything succeeds. -/
def menvAllOk : MEnv := ⟨fun _ => true, fun _ => true⟩

/-- Registry state with one live cached pool (handle 0) for id `c1`. -/
def stCached : PgState := ⟨[("c1", 0)], 1, []⟩

/-- A connected client for id `c1` holding pool 0, as the manager caches it. -/
def pgStubClient : PgClient := ⟨some 0, .connected, "c1", connC1⟩

/-- Manager state whose cache holds the `c1` client. -/
def mgrStateC2 : MgrState :=
  ⟨[("c1", .pg pgStubClient)], ⟨[("c1", 0)], 1, []⟩, ⟨[], 0⟩⟩

/-- A MongoDB descriptor used in the concrete scenarios. -/
def mconnC2 : MongoConnection :=
  ⟨"m1", "h", 27017, none, none, none, none, false, none⟩

/-- A MongoDB descriptor carrying an explicit connection string and clashing
discrete fields. -/
def mconnC3 : MongoConnection :=
  ⟨"m3", "realhost", 27018, some "du", some "dp", some "adb",
   some "SCRAM-SHA-1", true, some "mongodb://cs-host:1/x"⟩

/-- PostgreSQL descriptors sharing a partial connection string but differing
in the discrete port. -/
def connC3a : PostgresConnection :=
  ⟨"c3", "c3", "dh", 9999, "db0", some "alice", some "pw", none,
   some "postgresql://h/db"⟩

/-- Same as `connC3a` with discrete port 1111. -/
def connC3b : PostgresConnection :=
  ⟨"c3", "c3", "dh", 1111, "db0", some "alice", some "pw", none,
   some "postgresql://h/db"⟩

/-- A PostgreSQL descriptor with the spec's full example connection string and
clashing discrete fields. -/
def connC3w : PostgresConnection :=
  ⟨"c3w", "c3w", "otherhost", 1234, "otherdb", some "bob", some "zz", none,
   some "postgresql://u:p@h:5432/db"⟩

end Registry

namespace MongoSanitize

mutual

/-- On success, `sanitizeQuery` returns the input value unchanged. -/
theorem sanitizeQuery_ok_eq : ∀ (v : JsValue) (d : Nat) (w : JsValue),
    sanitizeQuery v d = .ok w → w = v
  | .null, d, w, h => by
      rw [sanitizeQuery] at h
      split at h <;> simp_all
  | .bool b, d, w, h => by
      rw [sanitizeQuery] at h
      split at h <;> simp_all
  | .num n, d, w, h => by
      rw [sanitizeQuery] at h
      split at h <;> simp_all
  | .str s, d, w, h => by
      rw [sanitizeQuery] at h
      split at h <;> simp_all
  | .arr items, d, w, h => by
      rw [sanitizeQuery] at h
      split at h
      · simp_all
      · cases hs : sanitizeItems items d with
        | error e => rw [hs] at h; simp [Bind.bind, Except.bind] at h
        | ok xs =>
            rw [hs] at h
            simp only [Bind.bind, Except.bind, Except.ok.injEq] at h
            rw [← h, sanitizeItems_ok_eq items d xs hs]
  | .obj entries, d, w, h => by
      rw [sanitizeQuery] at h
      split at h
      · simp_all
      · cases hs : sanitizeEntries entries d with
        | error e => rw [hs] at h; simp [Bind.bind, Except.bind] at h
        | ok es =>
            rw [hs] at h
            simp only [Bind.bind, Except.bind, Except.ok.injEq] at h
            rw [← h, sanitizeEntries_ok_eq entries d es hs]

theorem sanitizeItems_ok_eq : ∀ (items : List JsValue) (d : Nat) (xs : List JsValue),
    sanitizeItems items d = .ok xs → xs = items
  | [], d, xs, h => by
      rw [sanitizeItems] at h
      simp_all
  | .null :: rest, d, xs, h => by
      simp only [sanitizeItems] at h
      cases hrest : sanitizeItems rest d with
      | error e => rw [hrest] at h; simp [Bind.bind, Except.bind] at h
      | ok ys =>
          rw [hrest] at h
          simp only [Bind.bind, Except.bind, Except.ok.injEq] at h
          rw [← h, sanitizeItems_ok_eq rest d ys hrest]
  | .bool b :: rest, d, xs, h => by
      simp only [sanitizeItems] at h
      cases hrest : sanitizeItems rest d with
      | error e => rw [hrest] at h; simp [Bind.bind, Except.bind] at h
      | ok ys =>
          rw [hrest] at h
          simp only [Bind.bind, Except.bind, Except.ok.injEq] at h
          rw [← h, sanitizeItems_ok_eq rest d ys hrest]
  | .num n :: rest, d, xs, h => by
      simp only [sanitizeItems] at h
      cases hrest : sanitizeItems rest d with
      | error e => rw [hrest] at h; simp [Bind.bind, Except.bind] at h
      | ok ys =>
          rw [hrest] at h
          simp only [Bind.bind, Except.bind, Except.ok.injEq] at h
          rw [← h, sanitizeItems_ok_eq rest d ys hrest]
  | .str s :: rest, d, xs, h => by
      simp only [sanitizeItems] at h
      cases hrest : sanitizeItems rest d with
      | error e => rw [hrest] at h; simp [Bind.bind, Except.bind] at h
      | ok ys =>
          rw [hrest] at h
          simp only [Bind.bind, Except.bind, Except.ok.injEq] at h
          rw [← h, sanitizeItems_ok_eq rest d ys hrest]
  | .arr its :: rest, d, xs, h => by
      rw [sanitizeItems] at h
      cases hx : sanitizeQuery (.arr its) (d + 1) with
      | error e => rw [hx] at h; simp [Bind.bind, Except.bind] at h
      | ok x =>
          rw [hx] at h
          cases hrest : sanitizeItems rest d with
          | error e => rw [hrest] at h; simp [Bind.bind, Except.bind] at h
          | ok ys =>
              rw [hrest] at h
              simp only [Bind.bind, Except.bind, Except.ok.injEq] at h
              rw [← h, sanitizeQuery_ok_eq _ _ _ hx, sanitizeItems_ok_eq rest d ys hrest]
  | .obj ents :: rest, d, xs, h => by
      rw [sanitizeItems] at h
      cases hx : sanitizeQuery (.obj ents) (d + 1) with
      | error e => rw [hx] at h; simp [Bind.bind, Except.bind] at h
      | ok x =>
          rw [hx] at h
          cases hrest : sanitizeItems rest d with
          | error e => rw [hrest] at h; simp [Bind.bind, Except.bind] at h
          | ok ys =>
              rw [hrest] at h
              simp only [Bind.bind, Except.bind, Except.ok.injEq] at h
              rw [← h, sanitizeQuery_ok_eq _ _ _ hx, sanitizeItems_ok_eq rest d ys hrest]

theorem sanitizeEntries_ok_eq :
    ∀ (entries : List (String × JsValue)) (d : Nat) (es : List (String × JsValue)),
    sanitizeEntries entries d = .ok es → es = entries
  | [], d, es, h => by
      rw [sanitizeEntries] at h
      simp_all
  | (key, value) :: rest, d, es, h => by
      rw [sanitizeEntries] at h
      split at h
      · simp_all
      · split at h
        · simp_all
        · cases hv : sanitizeQuery value (d + 1) with
          | error e => rw [hv] at h; simp [Bind.bind, Except.bind] at h
          | ok w =>
              rw [hv] at h
              cases hrest : sanitizeEntries rest d with
              | error e => rw [hrest] at h; simp [Bind.bind, Except.bind] at h
              | ok ws =>
                  rw [hrest] at h
                  simp only [Bind.bind, Except.bind, Except.ok.injEq] at h
                  rw [← h, sanitizeQuery_ok_eq value (d + 1) w hv,
                    sanitizeEntries_ok_eq rest d ws hrest]

end

mutual

/-- A successful run of `sanitizeQuery` never needed to exceed depth 10. -/
theorem sanitizeQuery_ok_depth : ∀ (v : JsValue) (d : Nat) (w : JsValue),
    sanitizeQuery v d = .ok w → d + needDepth v ≤ 10
  | .null, d, w, h => by
      simp only [sanitizeQuery] at h
      split at h
      · simp_all
      · have hnd : needDepth (JsValue.null) = 0 := rfl
        omega
  | .bool b, d, w, h => by
      simp only [sanitizeQuery] at h
      split at h
      · simp_all
      · have hnd : needDepth (JsValue.bool b) = 0 := rfl
        omega
  | .num n, d, w, h => by
      simp only [sanitizeQuery] at h
      split at h
      · simp_all
      · have hnd : needDepth (JsValue.num n) = 0 := rfl
        omega
  | .str s, d, w, h => by
      simp only [sanitizeQuery] at h
      split at h
      · simp_all
      · have hnd : needDepth (JsValue.str s) = 0 := rfl
        omega
  | .arr items, d, w, h => by
      rw [sanitizeQuery] at h
      split at h
      · simp_all
      · rename_i hd
        rw [needDepth]
        cases hs : sanitizeItems items d with
        | error e => rw [hs] at h; simp [Bind.bind, Except.bind] at h
        | ok xs =>
            rcases sanitizeItems_ok_depth items d xs hs with h0 | hle
            · omega
            · exact hle
  | .obj entries, d, w, h => by
      rw [sanitizeQuery] at h
      split at h
      · simp_all
      · rename_i hd
        rw [needDepth]
        cases hs : sanitizeEntries entries d with
        | error e => rw [hs] at h; simp [Bind.bind, Except.bind] at h
        | ok es =>
            rcases sanitizeEntries_ok_depth entries d es hs with h0 | hle
            · omega
            · exact hle

theorem sanitizeItems_ok_depth : ∀ (items : List JsValue) (d : Nat) (xs : List JsValue),
    sanitizeItems items d = .ok xs →
    needDepthItems items = 0 ∨ d + needDepthItems items ≤ 10
  | [], d, xs, h => by
      left; rw [needDepthItems]
  | .arr its :: rest, d, xs, h => by
      rw [sanitizeItems] at h
      rw [needDepthItems]
      cases hx : sanitizeQuery (.arr its) (d + 1) with
      | error e => rw [hx] at h; simp [Bind.bind, Except.bind] at h
      | ok x =>
          have hxd := sanitizeQuery_ok_depth (.arr its) (d + 1) x hx
          rw [hx] at h
          cases hrest : sanitizeItems rest d with
          | error e => rw [hrest] at h; simp [Bind.bind, Except.bind] at h
          | ok ys =>
              rcases sanitizeItems_ok_depth rest d ys hrest with h0 | hle <;>
                · right
                  rcases le_total (1 + needDepth (JsValue.arr its)) (needDepthItems rest)
                    with hm | hm
                  · rw [max_eq_right hm]; omega
                  · rw [max_eq_left hm]; omega
  | .obj ents :: rest, d, xs, h => by
      rw [sanitizeItems] at h
      rw [needDepthItems]
      cases hx : sanitizeQuery (.obj ents) (d + 1) with
      | error e => rw [hx] at h; simp [Bind.bind, Except.bind] at h
      | ok x =>
          have hxd := sanitizeQuery_ok_depth (.obj ents) (d + 1) x hx
          rw [hx] at h
          cases hrest : sanitizeItems rest d with
          | error e => rw [hrest] at h; simp [Bind.bind, Except.bind] at h
          | ok ys =>
              rcases sanitizeItems_ok_depth rest d ys hrest with h0 | hle <;>
                · right
                  rcases le_total (1 + needDepth (JsValue.obj ents)) (needDepthItems rest)
                    with hm | hm
                  · rw [max_eq_right hm]; omega
                  · rw [max_eq_left hm]; omega
  | .null :: rest, d, xs, h => by
      simp only [sanitizeItems] at h
      simp only [needDepthItems, Nat.zero_max]
      cases hrest : sanitizeItems rest d with
      | error e => rw [hrest] at h; simp [Bind.bind, Except.bind] at h
      | ok ys => exact sanitizeItems_ok_depth rest d ys hrest
  | .bool b :: rest, d, xs, h => by
      simp only [sanitizeItems] at h
      simp only [needDepthItems, Nat.zero_max]
      cases hrest : sanitizeItems rest d with
      | error e => rw [hrest] at h; simp [Bind.bind, Except.bind] at h
      | ok ys => exact sanitizeItems_ok_depth rest d ys hrest
  | .num n :: rest, d, xs, h => by
      simp only [sanitizeItems] at h
      simp only [needDepthItems, Nat.zero_max]
      cases hrest : sanitizeItems rest d with
      | error e => rw [hrest] at h; simp [Bind.bind, Except.bind] at h
      | ok ys => exact sanitizeItems_ok_depth rest d ys hrest
  | .str s :: rest, d, xs, h => by
      simp only [sanitizeItems] at h
      simp only [needDepthItems, Nat.zero_max]
      cases hrest : sanitizeItems rest d with
      | error e => rw [hrest] at h; simp [Bind.bind, Except.bind] at h
      | ok ys => exact sanitizeItems_ok_depth rest d ys hrest

theorem sanitizeEntries_ok_depth :
    ∀ (entries : List (String × JsValue)) (d : Nat) (es : List (String × JsValue)),
    sanitizeEntries entries d = .ok es →
    needDepthEntries entries = 0 ∨ d + needDepthEntries entries ≤ 10
  | [], d, es, h => by
      left; rw [needDepthEntries]
  | (key, value) :: rest, d, es, h => by
      rw [sanitizeEntries] at h
      rw [needDepthEntries]
      split at h
      · simp_all
      · split at h
        · simp_all
        · cases hv : sanitizeQuery value (d + 1) with
          | error e => rw [hv] at h; simp [Bind.bind, Except.bind] at h
          | ok w =>
              have hvd := sanitizeQuery_ok_depth value (d + 1) w hv
              rw [hv] at h
              cases hrest : sanitizeEntries rest d with
              | error e => rw [hrest] at h; simp [Bind.bind, Except.bind] at h
              | ok ws =>
                  rcases sanitizeEntries_ok_depth rest d ws hrest with h0 | hle <;>
                    · right
                      rcases le_total (1 + needDepth value) (needDepthEntries rest) with hm | hm
                      · rw [max_eq_right hm]; omega
                      · rw [max_eq_left hm]; omega

end

mutual

/-- On key-clean input the only error `sanitizeQuery` can produce is `tooDeep`. -/
theorem sanitizeQuery_clean_err : ∀ (v : JsValue) (d : Nat) (e : SanitizeError),
    hasKey badKey v = false → sanitizeQuery v d = .error e → e = .tooDeep
  | .null, d, e, hc, h => by
      simp only [sanitizeQuery] at h
      split at h <;> simp_all
  | .bool b, d, e, hc, h => by
      simp only [sanitizeQuery] at h
      split at h <;> simp_all
  | .num n, d, e, hc, h => by
      simp only [sanitizeQuery] at h
      split at h <;> simp_all
  | .str s, d, e, hc, h => by
      simp only [sanitizeQuery] at h
      split at h <;> simp_all
  | .arr items, d, e, hc, h => by
      rw [hasKey] at hc
      rw [sanitizeQuery] at h
      split at h
      · simp_all
      · cases hs : sanitizeItems items d with
        | ok xs => rw [hs] at h; simp [Bind.bind, Except.bind] at h
        | error e2 =>
            rw [hs] at h
            simp only [Bind.bind, Except.bind, Except.error.injEq] at h
            rw [← h]
            exact sanitizeItems_clean_err items d e2 hc hs
  | .obj entries, d, e, hc, h => by
      rw [hasKey] at hc
      rw [sanitizeQuery] at h
      split at h
      · simp_all
      · cases hs : sanitizeEntries entries d with
        | ok es => rw [hs] at h; simp [Bind.bind, Except.bind] at h
        | error e2 =>
            rw [hs] at h
            simp only [Bind.bind, Except.bind, Except.error.injEq] at h
            rw [← h]
            exact sanitizeEntries_clean_err entries d e2 hc hs

theorem sanitizeItems_clean_err : ∀ (items : List JsValue) (d : Nat) (e : SanitizeError),
    hasKeyItems badKey items = false → sanitizeItems items d = .error e → e = .tooDeep
  | [], d, e, hc, h => by
      simp only [sanitizeItems] at h
      simp at h
  | x :: rest, d, e, hc, h => by
      rw [hasKeyItems] at hc
      simp only [Bool.or_eq_false_iff] at hc
      cases x with
      | arr its =>
          rw [sanitizeItems] at h
          cases hx : sanitizeQuery (.arr its) (d + 1) with
          | error e2 =>
              rw [hx] at h
              simp only [Bind.bind, Except.bind, Except.error.injEq] at h
              rw [← h]
              exact sanitizeQuery_clean_err (.arr its) (d + 1) e2 hc.1 hx
          | ok y =>
              rw [hx] at h
              cases hrest : sanitizeItems rest d with
              | ok ys => rw [hrest] at h; simp [Bind.bind, Except.bind] at h
              | error e2 =>
                  rw [hrest] at h
                  simp only [Bind.bind, Except.bind, Except.error.injEq] at h
                  rw [← h]
                  exact sanitizeItems_clean_err rest d e2 hc.2 hrest
      | obj ents =>
          rw [sanitizeItems] at h
          cases hx : sanitizeQuery (.obj ents) (d + 1) with
          | error e2 =>
              rw [hx] at h
              simp only [Bind.bind, Except.bind, Except.error.injEq] at h
              rw [← h]
              exact sanitizeQuery_clean_err (.obj ents) (d + 1) e2 hc.1 hx
          | ok y =>
              rw [hx] at h
              cases hrest : sanitizeItems rest d with
              | ok ys => rw [hrest] at h; simp [Bind.bind, Except.bind] at h
              | error e2 =>
                  rw [hrest] at h
                  simp only [Bind.bind, Except.bind, Except.error.injEq] at h
                  rw [← h]
                  exact sanitizeItems_clean_err rest d e2 hc.2 hrest
      | null =>
          simp only [sanitizeItems] at h
          cases hrest : sanitizeItems rest d with
          | ok ys => rw [hrest] at h; simp [Bind.bind, Except.bind] at h
          | error e2 =>
              rw [hrest] at h
              simp only [Bind.bind, Except.bind, Except.error.injEq] at h
              rw [← h]
              exact sanitizeItems_clean_err rest d e2 hc.2 hrest
      | bool b =>
          simp only [sanitizeItems] at h
          cases hrest : sanitizeItems rest d with
          | ok ys => rw [hrest] at h; simp [Bind.bind, Except.bind] at h
          | error e2 =>
              rw [hrest] at h
              simp only [Bind.bind, Except.bind, Except.error.injEq] at h
              rw [← h]
              exact sanitizeItems_clean_err rest d e2 hc.2 hrest
      | num n =>
          simp only [sanitizeItems] at h
          cases hrest : sanitizeItems rest d with
          | ok ys => rw [hrest] at h; simp [Bind.bind, Except.bind] at h
          | error e2 =>
              rw [hrest] at h
              simp only [Bind.bind, Except.bind, Except.error.injEq] at h
              rw [← h]
              exact sanitizeItems_clean_err rest d e2 hc.2 hrest
      | str s =>
          simp only [sanitizeItems] at h
          cases hrest : sanitizeItems rest d with
          | ok ys => rw [hrest] at h; simp [Bind.bind, Except.bind] at h
          | error e2 =>
              rw [hrest] at h
              simp only [Bind.bind, Except.bind, Except.error.injEq] at h
              rw [← h]
              exact sanitizeItems_clean_err rest d e2 hc.2 hrest

theorem sanitizeEntries_clean_err :
    ∀ (entries : List (String × JsValue)) (d : Nat) (e : SanitizeError),
    hasKeyEntries badKey entries = false → sanitizeEntries entries d = .error e →
    e = .tooDeep
  | [], d, e, hc, h => by
      simp only [sanitizeEntries] at h
      simp at h
  | (key, value) :: rest, d, e, hc, h => by
      rw [hasKeyEntries] at hc
      simp only [Bool.or_eq_false_iff, badKey] at hc
      rw [sanitizeEntries] at h
      split at h
      · rename_i hcon
        exact absurd hcon (by simp_all)
      · split at h
        · rename_i hsw
          exact absurd hsw (by simp_all)
        · cases hv : sanitizeQuery value (d + 1) with
          | error e2 =>
              rw [hv] at h
              simp only [Bind.bind, Except.bind, Except.error.injEq] at h
              rw [← h]
              exact sanitizeQuery_clean_err value (d + 1) e2 hc.1.2 hv
          | ok w =>
              rw [hv] at h
              cases hrest : sanitizeEntries rest d with
              | ok ws => rw [hrest] at h; simp [Bind.bind, Except.bind] at h
              | error e2 =>
                  rw [hrest] at h
                  simp only [Bind.bind, Except.bind, Except.error.injEq] at h
                  rw [← h]
                  exact sanitizeEntries_clean_err rest d e2 hc.2 hrest

end

mutual

/-- A key accepted by `p` (a sub-test of the deny-list) anywhere in the value
forces `sanitizeQuery` to throw. -/
theorem sanitizeQuery_bad_err : ∀ (p : String → Bool) (v : JsValue) (d : Nat),
    (∀ k, p k = true → DANGEROUS_OPERATORS.contains k = true) →
    hasKey p v = true → isErr (sanitizeQuery v d) = true
  | p, .null, d, himp, hk => by simp [hasKey] at hk
  | p, .bool b, d, himp, hk => by simp [hasKey] at hk
  | p, .num n, d, himp, hk => by simp [hasKey] at hk
  | p, .str s, d, himp, hk => by simp [hasKey] at hk
  | p, .arr items, d, himp, hk => by
      rw [hasKey] at hk
      rw [sanitizeQuery]
      split
      · rfl
      · cases hs : sanitizeItems items d with
        | error e => simp [Bind.bind, Except.bind, isErr]
        | ok xs =>
            have hbad := sanitizeItems_bad_err p items d himp hk
            rw [hs] at hbad
            simp [isErr] at hbad
  | p, .obj entries, d, himp, hk => by
      rw [hasKey] at hk
      rw [sanitizeQuery]
      split
      · rfl
      · cases hs : sanitizeEntries entries d with
        | error e => simp [Bind.bind, Except.bind, isErr]
        | ok es =>
            have hbad := sanitizeEntries_bad_err p entries d himp hk
            rw [hs] at hbad
            simp [isErr] at hbad

theorem sanitizeItems_bad_err : ∀ (p : String → Bool) (items : List JsValue) (d : Nat),
    (∀ k, p k = true → DANGEROUS_OPERATORS.contains k = true) →
    hasKeyItems p items = true → isErr (sanitizeItems items d) = true
  | p, [], d, himp, hk => by simp [hasKeyItems] at hk
  | p, x :: rest, d, himp, hk => by
      rw [hasKeyItems] at hk
      cases x with
      | arr its =>
          rw [sanitizeItems]
          cases hx : sanitizeQuery (.arr its) (d + 1) with
          | error e => simp [Bind.bind, Except.bind, isErr]
          | ok y =>
              have hky : hasKey p (.arr its) = false := by
                cases hvv : hasKey p (.arr its) with
                | false => rfl
                | true =>
                    have := sanitizeQuery_bad_err p (.arr its) (d + 1) himp hvv
                    rw [hx] at this
                    simp [isErr] at this
              rw [hky] at hk
              simp only [Bool.false_or] at hk
              cases hrest : sanitizeItems rest d with
              | error e => simp [Bind.bind, Except.bind, isErr]
              | ok ys =>
                  have := sanitizeItems_bad_err p rest d himp hk
                  rw [hrest] at this
                  simp [isErr] at this
      | obj ents =>
          rw [sanitizeItems]
          cases hx : sanitizeQuery (.obj ents) (d + 1) with
          | error e => simp [Bind.bind, Except.bind, isErr]
          | ok y =>
              have hky : hasKey p (.obj ents) = false := by
                cases hvv : hasKey p (.obj ents) with
                | false => rfl
                | true =>
                    have := sanitizeQuery_bad_err p (.obj ents) (d + 1) himp hvv
                    rw [hx] at this
                    simp [isErr] at this
              rw [hky] at hk
              simp only [Bool.false_or] at hk
              cases hrest : sanitizeItems rest d with
              | error e => simp [Bind.bind, Except.bind, isErr]
              | ok ys =>
                  have := sanitizeItems_bad_err p rest d himp hk
                  rw [hrest] at this
                  simp [isErr] at this
      | null =>
          simp only [hasKey, Bool.false_or] at hk
          simp only [sanitizeItems]
          cases hrest : sanitizeItems rest d with
          | error e => simp [Bind.bind, Except.bind, isErr]
          | ok ys =>
              have := sanitizeItems_bad_err p rest d himp hk
              rw [hrest] at this
              simp [isErr] at this
      | bool b =>
          simp only [hasKey, Bool.false_or] at hk
          simp only [sanitizeItems]
          cases hrest : sanitizeItems rest d with
          | error e => simp [Bind.bind, Except.bind, isErr]
          | ok ys =>
              have := sanitizeItems_bad_err p rest d himp hk
              rw [hrest] at this
              simp [isErr] at this
      | num n =>
          simp only [hasKey, Bool.false_or] at hk
          simp only [sanitizeItems]
          cases hrest : sanitizeItems rest d with
          | error e => simp [Bind.bind, Except.bind, isErr]
          | ok ys =>
              have := sanitizeItems_bad_err p rest d himp hk
              rw [hrest] at this
              simp [isErr] at this
      | str s =>
          simp only [hasKey, Bool.false_or] at hk
          simp only [sanitizeItems]
          cases hrest : sanitizeItems rest d with
          | error e => simp [Bind.bind, Except.bind, isErr]
          | ok ys =>
              have := sanitizeItems_bad_err p rest d himp hk
              rw [hrest] at this
              simp [isErr] at this

theorem sanitizeEntries_bad_err :
    ∀ (p : String → Bool) (entries : List (String × JsValue)) (d : Nat),
    (∀ k, p k = true → DANGEROUS_OPERATORS.contains k = true) →
    hasKeyEntries p entries = true → isErr (sanitizeEntries entries d) = true
  | p, [], d, himp, hk => by simp [hasKeyEntries] at hk
  | p, (key, value) :: rest, d, himp, hk => by
      rw [hasKeyEntries] at hk
      rw [sanitizeEntries]
      split
      · rfl
      · rename_i hcon
        have hpk : p key = false := by
          cases hpk : p key with
          | false => rfl
          | true => exact absurd (himp key hpk) (by simp_all)
        rw [hpk] at hk
        simp only [Bool.false_or] at hk
        split
        · rfl
        · cases hv : sanitizeQuery value (d + 1) with
          | error e => simp [Bind.bind, Except.bind, isErr]
          | ok w =>
              have hkv : hasKey p value = false := by
                cases hvv : hasKey p value with
                | false => rfl
                | true =>
                    have := sanitizeQuery_bad_err p value (d + 1) himp hvv
                    rw [hv] at this
                    simp [isErr] at this
              rw [hkv] at hk
              simp only [Bool.false_or] at hk
              cases hrest : sanitizeEntries rest d with
              | error e => simp [Bind.bind, Except.bind, isErr]
              | ok ws =>
                  have := sanitizeEntries_bad_err p rest d himp hk
                  rw [hrest] at this
                  simp [isErr] at this

end

mutual

/-- On key-clean input that nests beyond the depth limit, `sanitizeQuery`
throws the depth error. -/
theorem sanitizeQuery_clean_deep : ∀ (v : JsValue) (d : Nat),
    hasKey badKey v = false → 10 < d + needDepth v →
    sanitizeQuery v d = .error .tooDeep
  | .null, d, hc, hdeep => by
      have hnd : needDepth JsValue.null = 0 := rfl
      simp only [sanitizeQuery]
      rw [if_pos (by omega)]
  | .bool b, d, hc, hdeep => by
      have hnd : needDepth (JsValue.bool b) = 0 := rfl
      simp only [sanitizeQuery]
      rw [if_pos (by omega)]
  | .num n, d, hc, hdeep => by
      have hnd : needDepth (JsValue.num n) = 0 := rfl
      simp only [sanitizeQuery]
      rw [if_pos (by omega)]
  | .str s, d, hc, hdeep => by
      have hnd : needDepth (JsValue.str s) = 0 := rfl
      simp only [sanitizeQuery]
      rw [if_pos (by omega)]
  | .arr items, d, hc, hdeep => by
      rw [hasKey] at hc
      rw [needDepth] at hdeep
      rw [sanitizeQuery]
      by_cases hd : d > 10
      · rw [if_pos hd]
      · rw [if_neg hd]
        rw [sanitizeItems_clean_deep items d hc (by omega) hdeep]
        simp [Bind.bind, Except.bind]
  | .obj entries, d, hc, hdeep => by
      rw [hasKey] at hc
      rw [needDepth] at hdeep
      rw [sanitizeQuery]
      by_cases hd : d > 10
      · rw [if_pos hd]
      · rw [if_neg hd]
        rw [sanitizeEntries_clean_deep entries d hc (by omega) hdeep]
        simp [Bind.bind, Except.bind]

theorem sanitizeItems_clean_deep : ∀ (items : List JsValue) (d : Nat),
    hasKeyItems badKey items = false → d ≤ 10 → 10 < d + needDepthItems items →
    sanitizeItems items d = .error .tooDeep
  | [], d, hc, hd, hdeep => by
      have h0 : needDepthItems ([] : List JsValue) = 0 := rfl
      omega
  | .arr its :: rest, d, hc, hd, hdeep => by
      rw [hasKeyItems] at hc
      simp only [Bool.or_eq_false_iff] at hc
      rw [needDepthItems] at hdeep
      rw [sanitizeItems]
      by_cases hx1 : 10 < d + 1 + needDepth (JsValue.arr its)
      · rw [sanitizeQuery_clean_deep (.arr its) (d + 1) hc.1 hx1]
        simp [Bind.bind, Except.bind]
      · have h2 : 10 < d + needDepthItems rest := by
          rcases le_total (1 + needDepth (JsValue.arr its)) (needDepthItems rest) with hm | hm
          · rw [max_eq_right hm] at hdeep; exact hdeep
          · rw [max_eq_left hm] at hdeep; omega
        cases hx : sanitizeQuery (.arr its) (d + 1) with
        | error e =>
            have he := sanitizeQuery_clean_err (.arr its) (d + 1) e hc.1 hx
            rw [he]
            simp [Bind.bind, Except.bind]
        | ok y =>
            rw [sanitizeItems_clean_deep rest d hc.2 hd h2]
            simp [Bind.bind, Except.bind]
  | .obj ents :: rest, d, hc, hd, hdeep => by
      rw [hasKeyItems] at hc
      simp only [Bool.or_eq_false_iff] at hc
      rw [needDepthItems] at hdeep
      rw [sanitizeItems]
      by_cases hx1 : 10 < d + 1 + needDepth (JsValue.obj ents)
      · rw [sanitizeQuery_clean_deep (.obj ents) (d + 1) hc.1 hx1]
        simp [Bind.bind, Except.bind]
      · have h2 : 10 < d + needDepthItems rest := by
          rcases le_total (1 + needDepth (JsValue.obj ents)) (needDepthItems rest) with hm | hm
          · rw [max_eq_right hm] at hdeep; exact hdeep
          · rw [max_eq_left hm] at hdeep; omega
        cases hx : sanitizeQuery (.obj ents) (d + 1) with
        | error e =>
            have he := sanitizeQuery_clean_err (.obj ents) (d + 1) e hc.1 hx
            rw [he]
            simp [Bind.bind, Except.bind]
        | ok y =>
            rw [sanitizeItems_clean_deep rest d hc.2 hd h2]
            simp [Bind.bind, Except.bind]
  | .null :: rest, d, hc, hd, hdeep => by
      rw [hasKeyItems] at hc
      simp only [Bool.or_eq_false_iff] at hc
      simp only [needDepthItems, Nat.zero_max] at hdeep
      simp only [sanitizeItems]
      rw [sanitizeItems_clean_deep rest d hc.2 hd hdeep]
      simp [Bind.bind, Except.bind]
  | .bool b :: rest, d, hc, hd, hdeep => by
      rw [hasKeyItems] at hc
      simp only [Bool.or_eq_false_iff] at hc
      simp only [needDepthItems, Nat.zero_max] at hdeep
      simp only [sanitizeItems]
      rw [sanitizeItems_clean_deep rest d hc.2 hd hdeep]
      simp [Bind.bind, Except.bind]
  | .num n :: rest, d, hc, hd, hdeep => by
      rw [hasKeyItems] at hc
      simp only [Bool.or_eq_false_iff] at hc
      simp only [needDepthItems, Nat.zero_max] at hdeep
      simp only [sanitizeItems]
      rw [sanitizeItems_clean_deep rest d hc.2 hd hdeep]
      simp [Bind.bind, Except.bind]
  | .str s :: rest, d, hc, hd, hdeep => by
      rw [hasKeyItems] at hc
      simp only [Bool.or_eq_false_iff] at hc
      simp only [needDepthItems, Nat.zero_max] at hdeep
      simp only [sanitizeItems]
      rw [sanitizeItems_clean_deep rest d hc.2 hd hdeep]
      simp [Bind.bind, Except.bind]

theorem sanitizeEntries_clean_deep : ∀ (entries : List (String × JsValue)) (d : Nat),
    hasKeyEntries badKey entries = false → d ≤ 10 →
    10 < d + needDepthEntries entries →
    sanitizeEntries entries d = .error .tooDeep
  | [], d, hc, hd, hdeep => by
      have h0 : needDepthEntries ([] : List (String × JsValue)) = 0 := rfl
      omega
  | (key, value) :: rest, d, hc, hd, hdeep => by
      rw [hasKeyEntries] at hc
      simp only [Bool.or_eq_false_iff, badKey] at hc
      rw [needDepthEntries] at hdeep
      rw [sanitizeEntries]
      rw [if_neg (by simp_all), if_neg (by simp_all)]
      by_cases hx1 : 10 < d + 1 + needDepth value
      · rw [sanitizeQuery_clean_deep value (d + 1) hc.1.2 hx1]
        simp [Bind.bind, Except.bind]
      · have h2 : 10 < d + needDepthEntries rest := by
          rcases le_total (1 + needDepth value) (needDepthEntries rest) with hm | hm
          · rw [max_eq_right hm] at hdeep; exact hdeep
          · rw [max_eq_left hm] at hdeep; omega
        cases hv : sanitizeQuery value (d + 1) with
        | error e =>
            have he := sanitizeQuery_clean_err value (d + 1) e hc.1.2 hv
            rw [he]
            simp [Bind.bind, Except.bind]
        | ok w =>
            rw [sanitizeEntries_clean_deep rest d hc.2 hd h2]
            simp [Bind.bind, Except.bind]

end

/-- C4: a filter containing a denied operator key at any level reached by the
traversal is rejected by `sanitizeQuery`, which never returns a value, and the
spec scenario `{"status": {"$where": "1==1"}}` is rejected naming `$where`. -/
theorem C4_denied_operator_rejected :
    (∀ (v : JsValue) (d : Nat),
        hasKey (fun k => DANGEROUS_OPERATORS.contains k) v = true →
        isErr (sanitizeQuery v d) = true) ∧
    sanitizeQuery (.obj [("status", .obj [("$where", .str "1==1")])]) 0
      = .error (.opNotAllowed "$where") := by
  refine ⟨fun v d hk => sanitizeQuery_bad_err _ v d (fun k h => h) hk, ?_⟩
  simp [sanitizeQuery, sanitizeItems, sanitizeEntries, DANGEROUS_OPERATORS,
    ALLOWED_QUERY_OPERATORS, startsWithDollar, Bind.bind, Except.bind]

/-- Witness for C4 at the concrete filter `{"$eval": null}`. -/
theorem C4_witness :
    hasKey (fun k => DANGEROUS_OPERATORS.contains k) (.obj [("$eval", .null)]) = true ∧
    isErr (sanitizeQuery (.obj [("$eval", .null)]) 0) = true :=
  ⟨by decide, C4_denied_operator_rejected.1 (.obj [("$eval", .null)]) 0 (by decide)⟩

/-- C8 counterexample: a filter nested 12 objects deep whose first key is
`$where` is rejected with the operator error, not the depth-exceeded error,
refuting "rejects with a depth-exceeded error regardless of the filter's
content". -/
theorem C8_counterexample :
    10 < needDepth (.obj [("$where", .str "1==1"), ("deep", deepObj 11)]) ∧
    sanitizeQuery (.obj [("$where", .str "1==1"), ("deep", deepObj 11)]) 0
      = .error (.opNotAllowed "$where") ∧
    SanitizeError.opNotAllowed "$where" ≠ .tooDeep := by
  refine ⟨by simp [needDepth, needDepthEntries, needDepthItems, deepObj], ?_, by simp⟩
  simp [sanitizeQuery, sanitizeItems, sanitizeEntries, DANGEROUS_OPERATORS,
    ALLOWED_QUERY_OPERATORS, startsWithDollar, Bind.bind, Except.bind, deepObj]

/-- C8 amended: a filter nested deeper than the maximum depth 10 is always
rejected (never returns a sanitized value); the error is the depth-exceeded
error whenever no operator violation is encountered first. -/
theorem C8_depth_rejection_amended :
    (∀ v : JsValue, 10 < needDepth v → isErr (sanitizeQuery v 0) = true) ∧
    (∀ v : JsValue, 10 < needDepth v → hasKey badKey v = false →
      sanitizeQuery v 0 = .error .tooDeep) := by
  constructor
  · intro v hv
    cases hr : sanitizeQuery v 0 with
    | error e => rfl
    | ok w =>
        have := sanitizeQuery_ok_depth v 0 w hr
        omega
  · intro v hv hc
    exact sanitizeQuery_clean_deep v 0 hc (by omega)

/-- Witness for C8 at a clean chain of 12 nested objects. -/
theorem C8_witness :
    10 < needDepth (deepObj 11) ∧ hasKey badKey (deepObj 11) = false ∧
    sanitizeQuery (deepObj 11) 0 = .error .tooDeep :=
  ⟨by simp [needDepth, needDepthEntries, needDepthItems, deepObj],
   by decide,
   C8_depth_rejection_amended.2 (deepObj 11)
     (by simp [needDepth, needDepthEntries, needDepthItems, deepObj]) (by decide)⟩

/-- C9: `sanitizeQuery` is idempotent — a successful result sanitizes again to
itself. -/
theorem C9_sanitize_idempotent :
    ∀ (v w : JsValue), sanitizeQuery v 0 = .ok w → sanitizeQuery w 0 = .ok w := by
  intro v w h
  have hw := sanitizeQuery_ok_eq v 0 w h
  subst hw
  exact h

/-- Witness for C9 at the concrete filter `{"status": "active"}`. -/
theorem C9_witness :
    sanitizeQuery (.obj [("status", .str "active")]) 0
      = .ok (.obj [("status", .str "active")]) :=
  C9_sanitize_idempotent (.obj [("status", .str "active")])
    (.obj [("status", .str "active")])
    (by simp [sanitizeQuery, sanitizeItems, sanitizeEntries, DANGEROUS_OPERATORS,
      ALLOWED_QUERY_OPERATORS, startsWithDollar, Bind.bind, Except.bind])

/-- C10: `$mod` sits in both the allow-list and the deny-list; because the
deny-list check runs first, any filter containing the key `$mod` is rejected. -/
theorem C10_mod_denied_wins :
    DANGEROUS_OPERATORS.contains "$mod" = true ∧
    ALLOWED_QUERY_OPERATORS.contains "$mod" = true ∧
    (∀ (v : JsValue) (d : Nat), hasKey (fun k => k == "$mod") v = true →
        isErr (sanitizeQuery v d) = true) ∧
    sanitizeQuery (.obj [("n", .obj [("$mod", .arr [.num 2, .num 0])])]) 0
      = .error (.opNotAllowed "$mod") := by
  refine ⟨by decide, by decide, ?_, ?_⟩
  · intro v d hk
    refine sanitizeQuery_bad_err (fun k => k == "$mod") v d (fun k hk2 => ?_) hk
    have : k = "$mod" := by simpa using hk2
    subst this
    decide
  · simp [sanitizeQuery, sanitizeItems, sanitizeEntries, DANGEROUS_OPERATORS,
      ALLOWED_QUERY_OPERATORS, startsWithDollar, Bind.bind, Except.bind]

/-- Witness for C10 at the concrete filter `{"$mod": null}`. -/
theorem C10_witness :
    hasKey (fun k => k == "$mod") (.obj [("$mod", .null)]) = true ∧
    isErr (sanitizeQuery (.obj [("$mod", .null)]) 0) = true :=
  ⟨by decide, C10_mod_denied_wins.2.2.1 (.obj [("$mod", .null)]) 0 (by decide)⟩

end MongoSanitize

namespace PgSanitize

/-- An element not satisfying the predicate survives `dropWhile`. -/
theorem mem_dropWhile_of_mem {x : Char} {p : Char → Bool} :
    ∀ {cs : List Char}, p x = false → x ∈ cs → x ∈ cs.dropWhile p
  | [], _, hm => absurd hm (by simp)
  | c :: rest, hp, hm => by
      rw [List.dropWhile]
      cases hc : p c with
      | false =>
          simp only [Bool.false_eq_true, if_false]
          exact hm
      | true =>
          simp only [if_true]
          rcases List.mem_cons.mp hm with rfl | hm2
          · rw [hp] at hc; cases hc
          · exact mem_dropWhile_of_mem hp hm2

/-- Trimming preserves the presence of a semicolon (`';'` is not whitespace). -/
theorem semi_mem_trimChars {cs : List Char} : ';' ∈ trimChars cs ↔ ';' ∈ cs := by
  unfold trimChars
  constructor
  · intro hm
    have h1 : ((cs.dropWhile isSpaceChar).reverse.dropWhile isSpaceChar).Sublist
        (cs.dropWhile isSpaceChar).reverse := List.dropWhile_sublist _
    have h2 := (h1.reverse).subset
    simp only [List.reverse_reverse] at h2
    exact (List.dropWhile_sublist _).subset (h2 hm)
  · intro hm
    have hsp : isSpaceChar ';' = false := by decide
    have h1 : ';' ∈ cs.dropWhile isSpaceChar := mem_dropWhile_of_mem hsp hm
    have h2 : ';' ∈ (cs.dropWhile isSpaceChar).reverse := List.mem_reverse.mpr h1
    have h3 := mem_dropWhile_of_mem hsp h2
    exact List.mem_reverse.mpr h3

/-- Characterization of a found first semicolon index. -/
theorem firstSemiIdx_some_spec : ∀ (t : List Char) (i : Nat),
    firstSemiIdx t = some i →
    i < t.length ∧ t.getD i ' ' = ';' ∧ ∀ j, j < i → t.getD j ' ' ≠ ';'
  | [], i, h => by simp [firstSemiIdx] at h
  | c :: rest, i, h => by
      rw [firstSemiIdx] at h
      split at h
      · rename_i hc
        cases h
        refine ⟨by simp, by simpa using hc, ?_⟩
        intro j hj
        omega
      · rename_i hc
        cases hf : firstSemiIdx rest with
        | none => rw [hf] at h; simp at h
        | some j =>
            rw [hf] at h
            simp at h
            obtain ⟨hlt, hget, hmin⟩ := firstSemiIdx_some_spec rest j hf
            refine ⟨by simp only [List.length_cons]; omega, ?_, ?_⟩
            · rw [← h]
              simpa using hget
            · intro k hk
              match k with
              | 0 => simpa using hc
              | m + 1 =>
                  simp only [List.getD_cons_succ]
                  exact hmin m (by omega)

/-- A found semicolon is a member. -/
theorem firstSemiIdx_some_mem : ∀ {t : List Char} {i : Nat},
    firstSemiIdx t = some i → ';' ∈ t
  | c :: rest, i, h => by
      rw [firstSemiIdx] at h
      split at h
      · rename_i hc
        subst hc
        simp
      · cases hf : firstSemiIdx rest with
        | none => rw [hf] at h; simp at h
        | some j => exact List.mem_cons_of_mem c (firstSemiIdx_some_mem hf)

/-- No semicolon index is found iff the list has no semicolon. -/
theorem firstSemiIdx_none_iff : ∀ (t : List Char),
    firstSemiIdx t = none ↔ ';' ∉ t
  | [] => by simp [firstSemiIdx]
  | c :: rest => by
      rw [firstSemiIdx]
      split
      · rename_i hc
        subst hc
        simp
      · rename_i hc
        cases hf : firstSemiIdx rest with
        | some j =>
            have hmem := firstSemiIdx_some_mem hf
            simp [List.mem_cons, hmem]
        | none =>
            have := (firstSemiIdx_none_iff rest).mp hf
            simp [List.mem_cons, this]
            exact fun he => hc he.symm

/-- The source's check 2 computes exactly the spec's notion of a misplaced
semicolon. -/
theorem multiStatementViolation_eq_spec (sql : String) :
    multiStatementViolation sql = specMisplacedSemi sql := by
  unfold multiStatementViolation specMisplacedSemi
  cases hf : firstSemiIdx (trimChars sql.data) with
  | none =>
      have hnm := (firstSemiIdx_none_iff _).mp hf
      simp only [Bool.and_false]
      symm
      rw [List.any_eq_false]
      intro i hi
      have hi' : i < (trimChars sql.data).length := List.mem_range.mp hi
      have hne : (trimChars sql.data).getD i ' ' ≠ ';' := by
        intro hcon
        apply hnm
        rw [← hcon]
        rw [List.getD_eq_getElem _ ' ' hi']
        exact List.getElem_mem hi'
      intro hcon
      rw [Bool.and_eq_true, beq_iff_eq] at hcon
      exact hne hcon.1
  | some i =>
      obtain ⟨hlt, hget, hmin⟩ := firstSemiIdx_some_spec _ i hf
      have hmem : ';' ∈ sql.data := semi_mem_trimChars.mp (firstSemiIdx_some_mem hf)
      have hcont : sql.data.contains ';' = true := by
        simpa [List.contains] using List.elem_iff.mpr hmem
      rw [hcont]
      simp only [Bool.true_and]
      by_cases hil : i = (trimChars sql.data).length - 1
      · rw [decide_eq_false (by simpa using hil)]
        symm
        rw [List.any_eq_false]
        intro j hj
        have hj' : j < (trimChars sql.data).length := List.mem_range.mp hj
        rcases Nat.lt_or_ge j i with hji | hji
        · intro hcon
          rw [Bool.and_eq_true, beq_iff_eq] at hcon
          exact hmin j hji hcon.1
        · have hjl : j = (trimChars sql.data).length - 1 := by omega
          intro hcon
          rw [Bool.and_eq_true] at hcon
          simp [hjl] at hcon
      · rw [decide_eq_true (by simpa using hil)]
        symm
        rw [List.any_eq_true]
        refine ⟨i, List.mem_range.mpr hlt, ?_⟩
        rw [Bool.and_eq_true]
        refine ⟨by rw [beq_iff_eq]; exact hget, by simp [hil]⟩

/-- C6: with `allowMultipleStatements` false, a semicolon anywhere except as
the single trailing character of the trimmed statement makes `sanitizeSqlQuery`
reject; a lone trailing semicolon never triggers the multi-statement error; and
the two spec scenarios behave as stated. -/
theorem C6_semicolon_rule :
    (∀ (sql : String) (opts : SqlOptions), opts.allowMultipleStatements = false →
        specMisplacedSemi sql = true → isErr (sanitizeSqlQuery sql opts) = true) ∧
    (∀ (sql : String) (opts : SqlOptions), specMisplacedSemi sql = false →
        sanitizeSqlQuery sql opts ≠ .error .multipleStatements) ∧
    sanitizeSqlQuery "SELECT 1; DROP TABLE x" defaultSqlOptions
      = .error .multipleStatements ∧
    sanitizeSqlQuery "SELECT 1;" defaultSqlOptions = .ok "SELECT 1;" := by
  refine ⟨?_, ?_, by decide, by decide⟩
  · intro sql opts hopt hspec
    have hmv : multiStatementViolation sql = true := by
      rw [multiStatementViolation_eq_spec]; exact hspec
    unfold sanitizeSqlQuery
    split
    · rfl
    · simp [hopt, hmv, isErr]
  · intro sql opts hspec
    have hmv : multiStatementViolation sql = false := by
      rw [multiStatementViolation_eq_spec]; exact hspec
    unfold sanitizeSqlQuery
    rw [hmv]
    simp only [Bool.and_false]
    split
    · simp
    · rw [if_neg (by simp)]
      split
      · simp
      · split
        · split
          · simp
          · split
            · simp
            · simp
        · simp

/-- Witness for C6 at two concrete statements. -/
theorem C6_witness :
    isErr (sanitizeSqlQuery "DELETE FROM t; SELECT 1" defaultSqlOptions) = true ∧
    sanitizeSqlQuery "SELECT 2" defaultSqlOptions ≠ .error .multipleStatements :=
  ⟨C6_semicolon_rule.1 "DELETE FROM t; SELECT 1" defaultSqlOptions rfl (by decide),
   C6_semicolon_rule.2.1 "SELECT 2" defaultSqlOptions (by decide)⟩

/-- C5 counterexample: the statement `SELECT a$` contains no positional
placeholder, yet with one parameter the fourth check accepts, because the code
counts `$` characters rather than placeholders — refuting "accepts exactly when
the count of positional placeholders equals params.length". -/
theorem C5_counterexample :
    specPlaceholderCount "SELECT a$".data = 0 ∧
    sanitizeParameterizedQuery "SELECT a$" [.num 7] defaultSqlOptions 100
      = .ok ("SELECT a$", [.num 7]) := by
  exact ⟨by decide, by decide⟩

/-- C5 amended: when the statement passes validation and the parameter count
and types pass, the fourth check accepts exactly when the number of `$`
characters in the sanitized SQL equals `params.length`; the spec scenario
(`$1` with two parameters) is rejected with the mismatch naming counts 1 and 2. -/
theorem C5_placeholder_check_amended :
    (∀ (sql : String) (params : List SqlParam) (opts : SqlOptions) (maxP : Nat),
        sanitizeSqlQuery sql opts = .ok sql →
        params.length ≤ maxP →
        firstBadParam params 0 = none →
        (sanitizeParameterizedQuery sql params opts maxP
            = .ok (sql, params) ↔ countDollar sql = params.length)) ∧
    sanitizeParameterizedQuery "SELECT * FROM t WHERE id = $1" [.num 1, .num 2]
      defaultSqlOptions 100 = .error (.placeholderMismatch 1 2) := by
  refine ⟨?_, by decide⟩
  intro sql params opts maxP h1 h2 h3
  unfold sanitizeParameterizedQuery
  simp only [h1, h3]
  rw [if_neg (by omega)]
  by_cases hcd : countDollar sql = params.length
  · rw [if_neg (by simp [hcd])]
    simp [hcd]
  · rw [if_pos hcd]
    simp [hcd]

/-- Witness for C5 at a concrete accepted statement. -/
theorem C5_witness :
    sanitizeParameterizedQuery "SELECT a$b" [SqlParam.str "v"] defaultSqlOptions 100
      = .ok ("SELECT a$b", [SqlParam.str "v"]) ↔
    countDollar "SELECT a$b" = [SqlParam.str "v"].length :=
  C5_placeholder_check_amended.1 "SELECT a$b" [SqlParam.str "v"] defaultSqlOptions 100
    (by decide) (by decide) (by decide)

end PgSanitize

namespace Registry

/-- C1 (bug evidence): with a live cached pool 0 for id `c1` and every probe
succeeding, `getPostgresClient` returns a client whose `pool` is null instead
of one using the cached pool, and the client's first operation constructs a
second pool (handle 1) while pool 0 is still live and never ended — two live
pools for one id, contradicting both the invariant and the source's own
comment ("return a new client instance using the cached pool"). -/
theorem C1_duplicate_pool_on_cache_hit :
    (getPostgresClient connC1 envAllOk stCached).1 = .ok (PgClient.new connC1) ∧
    (getPostgresClient connC1 envAllOk stCached).2 = stCached ∧
    (PgClient.new connC1).pool = none ∧
    pgQuery (PgClient.new connC1) envAllOk stCached =
      (.ok (⟨some 1, .connected, "c1", connC1⟩, 1), ⟨[("c1", 1)], 2, []⟩) ∧
    livePgPools ⟨[("c1", 1)], 2, []⟩ = [0, 1] := by
  refine ⟨by decide, by decide, by decide, by decide, by decide⟩

/-- C2 counterexample: in an environment where every liveness probe fails, the
unified `getDatabaseClient` still returns the cached client unchanged — no
probe, no eviction, no rebuild — refuting "returns the cached connection only
after its liveness probe succeeds ... on every path". -/
theorem C2_counterexample :
    envAllFail.probeOk 0 = false ∧
    getDatabaseClient (.pgc connC1) envAllFail menvAllFail mgrStateC2
      = (.ok (.pg pgStubClient), mgrStateC2) := by
  exact ⟨by decide, by decide⟩

/-- C2 amended: the probe-gated reuse contract holds on the backend-specific
paths — `getMongoClient` returns the cached client exactly on probe success
and on failure evicts, rebuilds, caches and returns the fresh client;
`getPostgresClient` on probe failure evicts and builds, caches and returns a
client on a fresh pool — while the unified `getDatabaseClient` returns any
cached client without probing. -/
theorem C2_probe_gated_reuse_amended :
    (∀ (conn : MongoConnection) (env : MEnv) (st : MState) (m : Nat),
        getA st.cache conn.id = some m → env.probeOk m = true →
        getMongoClient conn env st = (.ok m, st)) ∧
    (∀ (conn : MongoConnection) (env : MEnv) (st : MState) (m : Nat),
        getA st.cache conn.id = some m → env.probeOk m = false →
        env.connectOk st.nextClient = true →
        getMongoClient conn env st =
          (.ok st.nextClient,
           ⟨setA (eraseA st.cache conn.id) conn.id st.nextClient,
            st.nextClient + 1⟩)) ∧
    (∀ (conn : PostgresConnection) (env : PgEnv) (st : PgState) (p : Nat),
        getA st.cache conn.id = some p → env.probeOk p = false →
        env.probeOk st.nextPool = true →
        getPostgresClient conn env st =
          (.ok ⟨some st.nextPool, .connected, conn.id, conn⟩,
           ⟨setA (eraseA st.cache conn.id) conn.id st.nextPool,
            st.nextPool + 1, st.ended⟩)) ∧
    (∀ (conn : DbConn) (penv : PgEnv) (menv : MEnv) (st : MgrState)
        (cl : DbClient),
        getA st.mgrCache conn.id = some cl →
        getDatabaseClient conn penv menv st = (.ok cl, st)) := by
  refine ⟨?_, ?_, ?_, ?_⟩
  · intro conn env st m h1 h2
    simp [getMongoClient, h1, h2]
  · intro conn env st m h1 h2 h3
    simp [getMongoClient, mongoConnectFresh, h1, h2, h3]
  · intro conn env st p h1 h2 h3
    simp [getPostgresClient, connect, PgClient.new, h1, h2, h3]
  · intro conn penv menv st cl h
    simp [getDatabaseClient, h]

/-- Witness for C2 at concrete cache states and environments. -/
theorem C2_witness :
    getMongoClient mconnC2 menvAllOk ⟨[("m1", 7)], 9⟩ = (.ok 7, ⟨[("m1", 7)], 9⟩) ∧
    getMongoClient mconnC2 menvAllFail ⟨[("m1", 7)], 9⟩ =
      (.ok 9, ⟨setA (eraseA [("m1", 7)] "m1") "m1" 9, 10⟩) ∧
    getPostgresClient connC1 envProbeNewOnly stCached =
      (.ok ⟨some 1, .connected, "c1", connC1⟩,
       ⟨setA (eraseA [("c1", 0)] "c1") "c1" 1, 2, []⟩) ∧
    getDatabaseClient (.pgc connC1) envAllOk menvAllOk mgrStateC2
      = (.ok (.pg pgStubClient), mgrStateC2) :=
  ⟨C2_probe_gated_reuse_amended.1 mconnC2 menvAllOk ⟨[("m1", 7)], 9⟩ 7
     (by decide) (by decide),
   C2_probe_gated_reuse_amended.2.1 mconnC2 menvAllFail ⟨[("m1", 7)], 9⟩ 7
     (by decide) (by decide) (by decide),
   C2_probe_gated_reuse_amended.2.2.1 connC1 envProbeNewOnly stCached 0
     (by decide) (by decide) (by decide),
   C2_probe_gated_reuse_amended.2.2.2 (.pgc connC1) envAllOk menvAllOk
     mgrStateC2 (.pg pgStubClient) (by decide)⟩

/-- C3 counterexample: two descriptors carrying the same explicit connection
string `postgresql://h/db` (no port, no user) but different discrete ports
yield different pool configurations — the target is not derived from the
connection string alone, and the discrete port is used. -/
theorem C3_counterexample :
    connC3a.connectionString = connC3b.connectionString ∧
    connC3a.connectionString = some "postgresql://h/db" ∧
    buildConfig connC3a ≠ buildConfig connC3b ∧
    (buildConfig connC3a).port = 9999 ∧
    (buildConfig connC3a).user = some "alice" := by
  refine ⟨by decide, by decide, by decide, by decide, by decide⟩

/-- C3 amended: the document backend returns an explicit connection string
verbatim (all discrete fields ignored); the relational backend gives URL
components precedence but falls back to discrete fields for missing
components and always takes TLS from the descriptor, so with the spec's full
example URL the discrete host/port/database/user/password are ignored. -/
theorem C3_connection_string_precedence_amended :
    (∀ (c : MongoConnection) (s : String),
        c.connectionString = some s → s ≠ "" →
        buildConnectionString c = s) ∧
    (∀ (c : PostgresConnection),
        c.connectionString = some "postgresql://u:p@h:5432/db" →
        buildConfig c = ⟨"h", 5432, "db", some "u", some "p",
          (match c.ssl with
           | some b => SslOpt.plain b
           | none => SslOpt.undef),
          10, 2, 10000, 30000⟩) := by
  constructor
  · intro c s h hs
    unfold buildConnectionString
    rw [if_pos (by simp [jsTruthyStr, h, hs]), h]
    rfl
  · intro c h
    have hurl : parseURL "postgresql://u:p@h:5432/db" =
        ⟨"postgresql:", "u", "p", "h", "5432", "/db"⟩ := by decide
    unfold buildConfig
    rw [if_pos (by simp [jsTruthyStr, h]), h]
    simp only [Option.getD_some, hurl]
    have hdb : String.mk (("/db" : String).data.drop 1) = "db" := by decide
    have hport : parseIntOpt "5432" = some 5432 := by decide
    simp [jsOrStr, jsOrNat, jsOrStrOpt, hdb, hport]

/-- Witness for C3 at concrete descriptors with clashing discrete fields. -/
theorem C3_witness :
    buildConnectionString mconnC3 = "mongodb://cs-host:1/x" ∧
    buildConfig connC3w = ⟨"h", 5432, "db", some "u", some "p", SslOpt.undef,
      10, 2, 10000, 30000⟩ :=
  ⟨C3_connection_string_precedence_amended.1 mconnC3 "mongodb://cs-host:1/x"
     (by decide) (by decide),
   C3_connection_string_precedence_amended.2 connC3w (by decide)⟩

end Registry

namespace RateLimit

/-- Every route ceiling in the table (and the default) is positive. -/
theorem limitFor_requests_pos (path : String) : 0 < (limitFor path).requests := by
  unfold limitFor LIMITS
  simp only [getA]
  split
  · rename_i l heq
    repeat' split at heq
    all_goals try (injection heq with h2; subst h2; decide)
    all_goals simp_all
  · decide

/-- Lookup of an absent key. -/
theorem getA_none_of_not_mem {β : Type} :
    ∀ (st : List (String × β)) (key : String),
    key ∉ st.map Prod.fst → getA st key = none
  | [], key, _ => rfl
  | (k, v) :: rest, key, h => by
      rw [getA]
      rw [List.map_cons, List.mem_cons] at h
      push_neg at h
      rw [if_neg (fun he => h.1 he.symm)]
      exact getA_none_of_not_mem rest key h.2

/-- After filtering out the (unique) entry of a key, lookup fails. -/
theorem getA_filter_none {β : Type} (p : String × β → Bool) :
    ∀ (st : List (String × β)) (key : String) (e : β),
    getA st key = some e → (st.map Prod.fst).Nodup → p (key, e) = false →
    getA (st.filter p) key = none
  | [], key, e, h, _, _ => by simp [getA] at h
  | (k, v) :: rest, key, e, h, hnd, hp => by
      rw [getA] at h
      rw [List.map_cons, List.nodup_cons] at hnd
      split at h
      · rename_i hk
        subst hk
        rw [Option.some.injEq] at h
        subst h
        rw [List.filter_cons, if_neg (by simp [hp])]
        refine getA_none_of_not_mem _ _ (fun hm => hnd.1 ?_)
        obtain ⟨kv, hmem, hfst⟩ := List.mem_map.mp hm
        exact List.mem_map.mpr ⟨kv, List.mem_of_mem_filter hmem, hfst⟩
      · rename_i hk
        rw [List.filter_cons]
        split
        · rw [getA, if_neg hk]
          exact getA_filter_none p rest key e h hnd.2 hp
        · exact getA_filter_none p rest key e h hnd.2 hp

/-- Lookup after `Map.set` of the same key. -/
theorem getA_setA {β : Type} :
    ∀ (st : List (String × β)) (key : String) (v : β),
    getA (setA st key v) key = some v
  | [], key, v => by simp [setA, getA]
  | (k, w) :: rest, key, v => by
      rw [setA]
      split
      · rw [getA, if_pos rfl]
      · rename_i hk
        rw [getA, if_neg hk]
        exact getA_setA rest key v

/-- One `checkRateLimit` step on a singleton state whose window has not yet
expired: deny at the ceiling, else increment and admit. -/
theorem checkRateLimit_single (identifier path : String) (now k R : Nat)
    (hle : now ≤ R) :
    checkRateLimit identifier path now [(identifier ++ ":" ++ path, ⟨k, R⟩)] =
      (if k ≥ (limitFor path).requests then
        ((false, some R), [(identifier ++ ":" ++ path, ⟨k, R⟩)])
      else
        ((true, none), [(identifier ++ ":" ++ path, ⟨k + 1, R⟩)])) := by
  unfold checkRateLimit
  have hkeep : (!decide (R < now)) = true := by simp; omega
  have hga : getA [(identifier ++ ":" ++ path, (⟨k, R⟩ : RateLimitEntry))]
      (identifier ++ ":" ++ path) = some ⟨k, R⟩ := by simp [getA]
  simp only [List.filter_cons, List.filter_nil, hkeep, if_true, hga, Option.getD_some]
  split
  · rfl
  · simp [setA]

/-- A denial-terminated run: starting from count `k` inside a live window of a
singleton state, `requests + 1 - k` calls inside the window admit the first
`requests - k` and then deny, reporting the reset time. -/
theorem runCalls_phase (identifier path : String) :
    ∀ (ts : List Nat) (k R : Nat),
    ts.length + k = (limitFor path).requests + 1 →
    k ≤ (limitFor path).requests →
    (∀ t ∈ ts, t ≤ R) →
    (runCalls identifier path ts [(identifier ++ ":" ++ path, ⟨k, R⟩)]).1 =
      List.replicate ((limitFor path).requests - k) (true, none)
        ++ [(false, some R)]
  | [], k, R, hlen, hk, _ => by simp at hlen; omega
  | t :: ts, k, R, hlen, hk, hts => by
      rw [runCalls]
      rw [checkRateLimit_single identifier path t k R (hts t (List.mem_cons_self t ts))]
      by_cases hge : k ≥ (limitFor path).requests
      · have hkL : k = (limitFor path).requests := le_antisymm hk hge
        have hts0 : ts = [] := List.eq_nil_of_length_eq_zero (by simp at hlen; omega)
        subst hts0
        rw [if_pos hge]
        simp [runCalls, hkL]
      · rw [if_neg hge]
        have ih := runCalls_phase identifier path ts (k + 1) R
          (by simp at hlen; omega) (by omega)
          (fun u hu => hts u (List.mem_cons_of_mem t hu))
        simp only []
        rw [ih]
        obtain ⟨m, hm⟩ : ∃ m, (limitFor path).requests - k = m + 1 :=
          ⟨(limitFor path).requests - (k + 1), by omega⟩
        rw [hm]
        have hm2 : (limitFor path).requests - (k + 1) = m := by omega
        rw [hm2, List.replicate_succ]
        rfl

/-- C7: for any (identity, route) key, `limit+1` calls inside one window admit
exactly the first `limit` and then deny with the window's reset time; and a
call after the reset time has passed starts a fresh window with count 1 and is
admitted. -/
theorem C7_rate_limiter :
    (∀ (identifier path : String) (t0 : Nat) (ts : List Nat),
        (t0 :: ts).length = (limitFor path).requests + 1 →
        (∀ t ∈ ts, t0 ≤ t ∧ t < t0 + (limitFor path).window) →
        (runCalls identifier path (t0 :: ts) []).1 =
          List.replicate (limitFor path).requests (true, none)
            ++ [(false, some (t0 + (limitFor path).window))]) ∧
    (∀ (identifier path : String) (now : Nat) (st : RState) (e : RateLimitEntry),
        getA st (identifier ++ ":" ++ path) = some e →
        (st.map Prod.fst).Nodup →
        e.resetTime < now →
        (checkRateLimit identifier path now st).1 = (true, none) ∧
        getA (checkRateLimit identifier path now st).2 (identifier ++ ":" ++ path)
          = some ⟨1, now + (limitFor path).window⟩) := by
  constructor
  · intro identifier path t0 ts hlen hts
    have hfirst : checkRateLimit identifier path t0 [] =
        ((true, none),
         [(identifier ++ ":" ++ path, ⟨1, t0 + (limitFor path).window⟩)]) := by
      unfold checkRateLimit
      simp only [List.filter_nil, getA, Option.getD_none]
      rw [if_neg (by have := limitFor_requests_pos path; omega)]
      simp [setA]
    rw [runCalls, hfirst]
    simp only []
    rw [runCalls_phase identifier path ts 1 (t0 + (limitFor path).window)
      (by simp at hlen; omega) (limitFor_requests_pos path)
      (fun u hu => by have := (hts u hu).2; omega)]
    obtain ⟨m, hm⟩ : ∃ m, (limitFor path).requests = m + 1 :=
      ⟨(limitFor path).requests - 1, by have := limitFor_requests_pos path; omega⟩
    rw [hm]
    simp [List.replicate_succ]
  · intro identifier path now st e hst hnd hexp
    unfold checkRateLimit
    have hkey : getA (st.filter fun kv => !decide (kv.2.resetTime < now))
        (identifier ++ ":" ++ path) = none :=
      getA_filter_none _ st _ e hst hnd (by simp [hexp])
    simp only [hkey, Option.getD_none]
    rw [if_neg (by have := limitFor_requests_pos path; omega)]
    exact ⟨rfl, getA_setA _ _ _⟩

/-- Witness for C7: the register route (3 requests / 300000 ms) admits three
calls and denies the fourth, and a call after expiry restarts the window. -/
theorem C7_witness :
    (runCalls "u" "/api/auth/register" [1000, 1001, 1002, 1003] []).1 =
      List.replicate (limitFor "/api/auth/register").requests (true, none)
        ++ [(false, some (1000 + (limitFor "/api/auth/register").window))] ∧
    (checkRateLimit "u" "/api/auth/register" 1000
        [("u:/api/auth/register", ⟨3, 500⟩)]).1 = (true, none) ∧
    getA (checkRateLimit "u" "/api/auth/register" 1000
        [("u:/api/auth/register", ⟨3, 500⟩)]).2 ("u" ++ ":" ++ "/api/auth/register")
      = some ⟨1, 1000 + (limitFor "/api/auth/register").window⟩ := by
  refine ⟨C7_rate_limiter.1 "u" "/api/auth/register" 1000 [1001, 1002, 1003]
    (by decide) (by decide), ?_, ?_⟩
  · exact (C7_rate_limiter.2 "u" "/api/auth/register" 1000
      [("u:/api/auth/register", ⟨3, 500⟩)] ⟨3, 500⟩ (by decide) (by decide) (by decide)).1
  · exact (C7_rate_limiter.2 "u" "/api/auth/register" 1000
      [("u:/api/auth/register", ⟨3, 500⟩)] ⟨3, 500⟩ (by decide) (by decide) (by decide)).2

end RateLimit

end MongoShow
